import Mathlib

/-!
Shallow embedding of the Cap'n Proto wire-format runtime (layout engine,
segment arena, read limiter and packed codec) of this repository, together
with proofs checking the specification's claims against the code.

Sources embedded:
* `src/c++/src/capnproto/arena.h` — `ReadLimiter`, `SegmentReader`,
  `SegmentBuilder`, and the packed codec
  (`PackedOutputStream::write`, `PackedInputStream::read`).
* `src/c++/src/capnproto/layout.c++` — `WirePointer`, `WireHelpers`
  (`allocate`, `zeroObject`, `followFars`, `getWritableStructPointer`,
  `transferPointer`, `readListPointer`, `readTextPointer`, ...) and the
  `StructReader` field accessors.
* the builder-arena parts of the repository (`BuilderArena`).
-/

set_option maxHeartbeats 1000000

namespace CapnProto

/-! ## Packed codec (serialize-packed.c++)

A word is eight bytes `b0..b7` (each a `uint8_t` in the source; modelled as
`Nat`, only zero-vs-nonzero matters to the codec). The encoder
`PackedOutputStream::write` and the decoder `PackedInputStream::read`
operate on whole 8-byte words. -/

/-- One 64-bit word as its eight little-endian bytes, the granularity at
which the packed codec works. -/
structure Word8 where
  b0 : Nat
  b1 : Nat
  b2 : Nat
  b3 : Nat
  b4 : Nat
  b5 : Nat
  b6 : Nat
  b7 : Nat
deriving DecidableEq, Repr

/-- The all-zero word. -/
def zeroWord : Word8 := ⟨0, 0, 0, 0, 0, 0, 0, 0⟩

/-- The eight bytes of a word, in order. -/
def wordBytes (w : Word8) : List Nat :=
  [w.b0, w.b1, w.b2, w.b3, w.b4, w.b5, w.b6, w.b7]

/-- `bitOf b` is 1 when byte `b` is non-zero (the `uint8_t bit##n = *in != 0`
of `HANDLE_BYTE` in `PackedOutputStream::write`). -/
def bitOf (b : Nat) : Nat := if b ≠ 0 then 1 else 0

/-- The tag byte of a word: bit `i` is set iff byte `i` is non-zero
(`tag = (bit0 << 0) | ... | (bit7 << 7)` in `PackedOutputStream::write`). -/
def tagOf (w : Word8) : Nat :=
  bitOf w.b0 + 2 * bitOf w.b1 + 4 * bitOf w.b2 + 8 * bitOf w.b3 +
    16 * bitOf w.b4 + 32 * bitOf w.b5 + 64 * bitOf w.b6 + 128 * bitOf w.b7

/-- The bytes the encoder emits for one word after the tag: exactly the
non-zero bytes, in order (`*out = *in; out += bit##n` in `HANDLE_BYTE`). -/
def packedBytes (w : Word8) : List Nat :=
  (if w.b0 ≠ 0 then [w.b0] else []) ++ (if w.b1 ≠ 0 then [w.b1] else []) ++
  (if w.b2 ≠ 0 then [w.b2] else []) ++ (if w.b3 ≠ 0 then [w.b3] else []) ++
  (if w.b4 ≠ 0 then [w.b4] else []) ++ (if w.b5 ≠ 0 then [w.b5] else []) ++
  (if w.b6 ≠ 0 then [w.b6] else []) ++ (if w.b7 ≠ 0 then [w.b7] else [])

/-- Number of zero bytes in a word (the counter `c` in the `tag == 0xff`
branch of `PackedOutputStream::write`). -/
def countZeros (w : Word8) : Nat :=
  (if w.b0 = 0 then 1 else 0) + (if w.b1 = 0 then 1 else 0) +
  (if w.b2 = 0 then 1 else 0) + (if w.b3 = 0 then 1 else 0) +
  (if w.b4 = 0 then 1 else 0) + (if w.b5 = 0 then 1 else 0) +
  (if w.b6 = 0 then 1 else 0) + (if w.b7 = 0 then 1 else 0)

/-- After an all-zero word the encoder scans forward through at most `limit`
(= 255) further all-zero words and returns how many it saw
(`while (inWord < limit && *inWord == 0) ++inWord` in the `tag == 0` branch). -/
def zeroRunLen : List Word8 → Nat → Nat
  | [], _ => 0
  | _ :: _, 0 => 0
  | w :: ws, Nat.succ k => if w = zeroWord then zeroRunLen ws k + 1 else 0

/-- After an all-non-zero word the encoder scans forward through at most
`limit` (= 255) further words containing fewer than two zero bytes and
returns how many it saw (the `c >= 2` un-read loop in the `tag == 0xff`
branch). -/
def verbRunLen : List Word8 → Nat → Nat
  | [], _ => 0
  | _ :: _, 0 => 0
  | w :: ws, Nat.succ k => if countZeros w < 2 then verbRunLen ws k + 1 else 0

/-- `PackedOutputStream::write`: the byte stream the packed encoder emits for
a sequence of words (buffer management of the underlying stream abstracted
away; the emitted bytes are independent of buffer boundaries). -/
def pack : List Word8 → List Nat
  | [] => []
  | w :: ws =>
    let t := tagOf w
    if t = 0 then
      let c := zeroRunLen ws 255
      t :: (packedBytes w ++ (c :: pack (ws.drop c)))
    else if t = 255 then
      let c := verbRunLen ws 255
      t :: (packedBytes w ++
        (c :: ((ws.take c).flatMap wordBytes ++ pack (ws.drop c))))
    else
      t :: (packedBytes w ++ pack ws)
termination_by ws => ws.length
decreasing_by
  · simp [List.length_drop]; omega
  · simp [List.length_drop]; omega
  · simp

/-- Decoder helper: consume one byte if the tag bit is set, else produce a
zero byte (`if (tag & (1u << i)) { *out++ = *in++; } else { *out++ = 0; }`). -/
def readByteIf (b : Bool) (bs : List Nat) : Option (Nat × List Nat) :=
  if b then
    match bs with
    | [] => none
    | x :: rest => some (x, rest)
  else some (0, bs)

/-- Tag bit `i` (`tag & (1u << i)` in `PackedInputStream::read`). -/
def tagBit (tag i : Nat) : Bool := tag / 2 ^ i % 2 = 1

/-- Decode the 8 bytes of one word from the stream according to a tag byte. -/
def readWordTag (tag : Nat) (bs : List Nat) : Option (Word8 × List Nat) := do
  let (x0, bs) ← readByteIf (tagBit tag 0) bs
  let (x1, bs) ← readByteIf (tagBit tag 1) bs
  let (x2, bs) ← readByteIf (tagBit tag 2) bs
  let (x3, bs) ← readByteIf (tagBit tag 3) bs
  let (x4, bs) ← readByteIf (tagBit tag 4) bs
  let (x5, bs) ← readByteIf (tagBit tag 5) bs
  let (x6, bs) ← readByteIf (tagBit tag 6) bs
  let (x7, bs) ← readByteIf (tagBit tag 7) bs
  return (⟨x0, x1, x2, x3, x4, x5, x6, x7⟩, bs)

/-- Consume exactly `8` verbatim bytes as one word (a word-sized slice of the
`memcpy` in the decoder's `tag == 0xff` branch). -/
def takeWord8 : List Nat → Option (Word8 × List Nat)
  | b0 :: b1 :: b2 :: b3 :: b4 :: b5 :: b6 :: b7 :: rest =>
    some (⟨b0, b1, b2, b3, b4, b5, b6, b7⟩, rest)
  | _ => none

/-- Consume `n` verbatim words (the run copy in the decoder's `tag == 0xff`
branch; `none` models "Premature end of packed input"). -/
def takeWords : Nat → List Nat → Option (List Word8 × List Nat)
  | 0, bs => some ([], bs)
  | Nat.succ n, bs =>
    match takeWord8 bs with
    | none => none
    | some (w, rest) =>
      match takeWords n rest with
      | none => none
      | some (ws, rest2) => some (w :: ws, rest2)

/-- `PackedInputStream::read`: decode `n` words from a packed byte stream,
returning the decoded words and the unconsumed remainder of the stream.
`none` models the recorded validation failures ("Premature end of packed
input", "Packed input did not end cleanly on a segment boundary"). -/
def unpack (bs : List Nat) (n : Nat) : Option (List Word8 × List Nat) :=
  match n with
  | 0 => some ([], bs)
  | Nat.succ m =>
    match bs with
    | [] => none
    | tag :: rest =>
      match readWordTag tag rest with
      | none => none
      | some (w, rest1) =>
        if tag = 0 then
          match rest1 with
          | [] => none
          | c :: rest2 =>
            if c ≤ m then
              match unpack rest2 (m - c) with
              | none => none
              | some (ws, rest3) => some (w :: (List.replicate c zeroWord ++ ws), rest3)
            else none
        else if tag = 255 then
          match rest1 with
          | [] => none
          | c :: rest2 =>
            if c ≤ m then
              match takeWords c rest2 with
              | none => none
              | some (run, rest3) =>
                match unpack rest3 (m - c) with
                | none => none
                | some (ws, rest4) => some (w :: (run ++ ws), rest4)
            else none
        else
          match unpack rest1 m with
          | none => none
          | some (ws, rest2) => some (w :: ws, rest2)
termination_by n
decreasing_by
  · omega
  · omega
  · omega

/-- A byte stream is a valid packed framed stream when it is the packed
encoding of some word sequence (byte-alignment is inherent: `pack` consumes
whole words). -/
def IsValidPacked (s : List Nat) : Prop := ∃ m : List Word8, pack m = s

end CapnProto

namespace CapnProto

/-! ### Packed codec lemmas -/

theorem bitOf_le_one (b : Nat) : bitOf b ≤ 1 := by
  unfold bitOf; split <;> omega

theorem bitOf_eq_one_iff (b : Nat) : bitOf b = 1 ↔ b ≠ 0 := by
  unfold bitOf; split <;> simp_all

theorem tagBit_tagOf0 (w : Word8) : tagBit (tagOf w) 0 = decide (w.b0 ≠ 0) := by
  have h0 := bitOf_le_one w.b0; have h1 := bitOf_le_one w.b1
  have h2 := bitOf_le_one w.b2; have h3 := bitOf_le_one w.b3
  have h4 := bitOf_le_one w.b4; have h5 := bitOf_le_one w.b5
  have h6 := bitOf_le_one w.b6; have h7 := bitOf_le_one w.b7
  have hb := bitOf_eq_one_iff w.b0
  simp only [tagBit, tagOf]
  rw [decide_eq_decide, ← hb]
  omega

theorem tagBit_tagOf1 (w : Word8) : tagBit (tagOf w) 1 = decide (w.b1 ≠ 0) := by
  have h0 := bitOf_le_one w.b0; have h1 := bitOf_le_one w.b1
  have h2 := bitOf_le_one w.b2; have h3 := bitOf_le_one w.b3
  have h4 := bitOf_le_one w.b4; have h5 := bitOf_le_one w.b5
  have h6 := bitOf_le_one w.b6; have h7 := bitOf_le_one w.b7
  have hb := bitOf_eq_one_iff w.b1
  simp only [tagBit, tagOf]
  rw [decide_eq_decide, ← hb]
  omega

theorem tagBit_tagOf2 (w : Word8) : tagBit (tagOf w) 2 = decide (w.b2 ≠ 0) := by
  have h0 := bitOf_le_one w.b0; have h1 := bitOf_le_one w.b1
  have h2 := bitOf_le_one w.b2; have h3 := bitOf_le_one w.b3
  have h4 := bitOf_le_one w.b4; have h5 := bitOf_le_one w.b5
  have h6 := bitOf_le_one w.b6; have h7 := bitOf_le_one w.b7
  have hb := bitOf_eq_one_iff w.b2
  simp only [tagBit, tagOf]
  rw [decide_eq_decide, ← hb]
  omega

theorem tagBit_tagOf3 (w : Word8) : tagBit (tagOf w) 3 = decide (w.b3 ≠ 0) := by
  have h0 := bitOf_le_one w.b0; have h1 := bitOf_le_one w.b1
  have h2 := bitOf_le_one w.b2; have h3 := bitOf_le_one w.b3
  have h4 := bitOf_le_one w.b4; have h5 := bitOf_le_one w.b5
  have h6 := bitOf_le_one w.b6; have h7 := bitOf_le_one w.b7
  have hb := bitOf_eq_one_iff w.b3
  simp only [tagBit, tagOf]
  rw [decide_eq_decide, ← hb]
  omega

theorem tagBit_tagOf4 (w : Word8) : tagBit (tagOf w) 4 = decide (w.b4 ≠ 0) := by
  have h0 := bitOf_le_one w.b0; have h1 := bitOf_le_one w.b1
  have h2 := bitOf_le_one w.b2; have h3 := bitOf_le_one w.b3
  have h4 := bitOf_le_one w.b4; have h5 := bitOf_le_one w.b5
  have h6 := bitOf_le_one w.b6; have h7 := bitOf_le_one w.b7
  have hb := bitOf_eq_one_iff w.b4
  simp only [tagBit, tagOf]
  rw [decide_eq_decide, ← hb]
  omega

theorem tagBit_tagOf5 (w : Word8) : tagBit (tagOf w) 5 = decide (w.b5 ≠ 0) := by
  have h0 := bitOf_le_one w.b0; have h1 := bitOf_le_one w.b1
  have h2 := bitOf_le_one w.b2; have h3 := bitOf_le_one w.b3
  have h4 := bitOf_le_one w.b4; have h5 := bitOf_le_one w.b5
  have h6 := bitOf_le_one w.b6; have h7 := bitOf_le_one w.b7
  have hb := bitOf_eq_one_iff w.b5
  simp only [tagBit, tagOf]
  rw [decide_eq_decide, ← hb]
  omega

theorem tagBit_tagOf6 (w : Word8) : tagBit (tagOf w) 6 = decide (w.b6 ≠ 0) := by
  have h0 := bitOf_le_one w.b0; have h1 := bitOf_le_one w.b1
  have h2 := bitOf_le_one w.b2; have h3 := bitOf_le_one w.b3
  have h4 := bitOf_le_one w.b4; have h5 := bitOf_le_one w.b5
  have h6 := bitOf_le_one w.b6; have h7 := bitOf_le_one w.b7
  have hb := bitOf_eq_one_iff w.b6
  simp only [tagBit, tagOf]
  rw [decide_eq_decide, ← hb]
  omega

theorem tagBit_tagOf7 (w : Word8) : tagBit (tagOf w) 7 = decide (w.b7 ≠ 0) := by
  have h0 := bitOf_le_one w.b0; have h1 := bitOf_le_one w.b1
  have h2 := bitOf_le_one w.b2; have h3 := bitOf_le_one w.b3
  have h4 := bitOf_le_one w.b4; have h5 := bitOf_le_one w.b5
  have h6 := bitOf_le_one w.b6; have h7 := bitOf_le_one w.b7
  have hb := bitOf_eq_one_iff w.b7
  simp only [tagBit, tagOf]
  rw [decide_eq_decide, ← hb]
  omega

theorem readByteIf_emit (b : Nat) (rest : List Nat) :
    readByteIf (!decide (b = 0)) ((if b = 0 then [] else [b]) ++ rest) = some (b, rest) := by
  by_cases hb : b = 0 <;> simp [readByteIf, hb]

theorem readWordTag_packedBytes (w : Word8) (rest : List Nat) :
    readWordTag (tagOf w) (packedBytes w ++ rest) = some (w, rest) := by
  rcases w with ⟨b0, b1, b2, b3, b4, b5, b6, b7⟩
  simp only [readWordTag, tagBit_tagOf0, tagBit_tagOf1, tagBit_tagOf2, tagBit_tagOf3,
    tagBit_tagOf4, tagBit_tagOf5, tagBit_tagOf6, tagBit_tagOf7, packedBytes,
    List.append_assoc]
  simp [readByteIf_emit]

theorem tagOf_eq_zero_iff (w : Word8) : tagOf w = 0 ↔ w = zeroWord := by
  rcases w with ⟨b0, b1, b2, b3, b4, b5, b6, b7⟩
  have h0 := bitOf_le_one b0; have h1 := bitOf_le_one b1
  have h2 := bitOf_le_one b2; have h3 := bitOf_le_one b3
  have h4 := bitOf_le_one b4; have h5 := bitOf_le_one b5
  have h6 := bitOf_le_one b6; have h7 := bitOf_le_one b7
  simp only [tagOf, zeroWord, Word8.mk.injEq]
  constructor
  · intro h
    have e0 : bitOf b0 = 0 := by omega
    have e1 : bitOf b1 = 0 := by omega
    have e2 : bitOf b2 = 0 := by omega
    have e3 : bitOf b3 = 0 := by omega
    have e4 : bitOf b4 = 0 := by omega
    have e5 : bitOf b5 = 0 := by omega
    have e6 : bitOf b6 = 0 := by omega
    have e7 : bitOf b7 = 0 := by omega
    unfold bitOf at e0 e1 e2 e3 e4 e5 e6 e7
    constructor
    · by_contra hb; simp [hb] at e0
    constructor
    · by_contra hb; simp [hb] at e1
    constructor
    · by_contra hb; simp [hb] at e2
    constructor
    · by_contra hb; simp [hb] at e3
    constructor
    · by_contra hb; simp [hb] at e4
    constructor
    · by_contra hb; simp [hb] at e5
    constructor
    · by_contra hb; simp [hb] at e6
    · by_contra hb; simp [hb] at e7
  · rintro ⟨rfl, rfl, rfl, rfl, rfl, rfl, rfl, rfl⟩
    simp [bitOf]

theorem packedBytes_zeroWord : packedBytes zeroWord = [] := rfl

theorem zeroRunLen_le (ws : List Word8) (k : Nat) : zeroRunLen ws k ≤ k := by
  induction ws generalizing k with
  | nil => simp [zeroRunLen]
  | cons w ws ih =>
    cases k with
    | zero => simp [zeroRunLen]
    | succ k =>
      simp only [zeroRunLen]
      split
      · have := ih k; omega
      · omega

theorem zeroRunLen_le_length (ws : List Word8) (k : Nat) :
    zeroRunLen ws k ≤ ws.length := by
  induction ws generalizing k with
  | nil => simp [zeroRunLen]
  | cons w ws ih =>
    cases k with
    | zero => simp [zeroRunLen]
    | succ k =>
      simp only [zeroRunLen, List.length_cons]
      split
      · have := ih k; omega
      · omega

theorem take_zeroRunLen (ws : List Word8) (k : Nat) :
    ws.take (zeroRunLen ws k) = List.replicate (zeroRunLen ws k) zeroWord := by
  induction ws generalizing k with
  | nil => simp [zeroRunLen]
  | cons w ws ih =>
    cases k with
    | zero => simp [zeroRunLen]
    | succ k =>
      simp only [zeroRunLen]
      split
      · rename_i hz
        simp [List.take_succ_cons, List.replicate_succ, hz, ih k]
      · simp

theorem verbRunLen_le (ws : List Word8) (k : Nat) : verbRunLen ws k ≤ k := by
  induction ws generalizing k with
  | nil => simp [verbRunLen]
  | cons w ws ih =>
    cases k with
    | zero => simp [verbRunLen]
    | succ k =>
      simp only [verbRunLen]
      split
      · have := ih k; omega
      · omega

theorem verbRunLen_le_length (ws : List Word8) (k : Nat) :
    verbRunLen ws k ≤ ws.length := by
  induction ws generalizing k with
  | nil => simp [verbRunLen]
  | cons w ws ih =>
    cases k with
    | zero => simp [verbRunLen]
    | succ k =>
      simp only [verbRunLen, List.length_cons]
      split
      · have := ih k; omega
      · omega

theorem mem_take_verbRunLen (ws : List Word8) (k : Nat) :
    ∀ w' ∈ ws.take (verbRunLen ws k), countZeros w' < 2 := by
  induction ws generalizing k with
  | nil => simp
  | cons w ws ih =>
    cases k with
    | zero => simp [verbRunLen]
    | succ k =>
      simp only [verbRunLen]
      split
      · rename_i hc
        intro x hx
        rw [List.take_succ_cons] at hx
        rcases List.mem_cons.mp hx with rfl | hx2
        · exact hc
        · exact ih k x hx2
      · simp

theorem takeWords_flatMap (run : List Word8) (rest : List Nat) :
    takeWords run.length (run.flatMap wordBytes ++ rest) = some (run, rest) := by
  induction run with
  | nil => simp [takeWords]
  | cons w ws ih =>
    rcases w with ⟨b0, b1, b2, b3, b4, b5, b6, b7⟩
    simp [takeWords, takeWord8, wordBytes, List.flatMap_cons, List.append_assoc, ih]

theorem readWordTag_zero (bs : List Nat) : readWordTag 0 bs = some (zeroWord, bs) := by
  simp [readWordTag, readByteIf, tagBit, zeroWord]

end CapnProto

namespace CapnProto

theorem takeWords_take (ws : List Word8) (c : Nat) (hc : c ≤ ws.length) (rest : List Nat) :
    takeWords c ((ws.take c).flatMap wordBytes ++ rest) = some (ws.take c, rest) := by
  have h := takeWords_flatMap (ws.take c) rest
  rwa [List.length_take, Nat.min_eq_left hc] at h

theorem readWordTag_packedBytes255 (w : Word8) (h : tagOf w = 255) (rest : List Nat) :
    readWordTag 255 (packedBytes w ++ rest) = some (w, rest) :=
  h ▸ readWordTag_packedBytes w rest

theorem unpack_pack_aux :
    ∀ fuel (m : List Word8), m.length ≤ fuel → unpack (pack m) m.length = some (m, []) := by
  intro fuel
  induction fuel with
  | zero =>
    intro m hm
    have hnil : m = [] := List.eq_nil_of_length_eq_zero (Nat.le_zero.mp hm)
    subst hnil
    simp [pack, unpack]
  | succ f ih =>
    intro m hm
    cases m with
    | nil => simp [pack, unpack]
    | cons w ws =>
      have hws : ws.length ≤ f := by
        simp only [List.length_cons] at hm; omega
      by_cases ht0 : tagOf w = 0
      · -- all-zero word: tag 0, then a count of further zero words
        have hw : w = zeroWord := (tagOf_eq_zero_iff w).mp ht0
        subst hw
        have hck := zeroRunLen_le_length ws 255
        have hrest : (ws.drop (zeroRunLen ws 255)).length ≤ f := by
          simp only [List.length_drop]; omega
        have hlen : ws.length - zeroRunLen ws 255 = (ws.drop (zeroRunLen ws 255)).length := by
          simp [List.length_drop]
        rw [pack]
        simp only [ht0, if_pos, packedBytes_zeroWord, List.nil_append, List.length_cons]
        rw [show ws.length + 1 = Nat.succ ws.length from rfl]
        simp only [unpack, readWordTag_zero]
        simp only [if_pos rfl, if_pos hck]
        have hu : unpack (pack (ws.drop (zeroRunLen ws 255))) (ws.length - zeroRunLen ws 255)
            = some (ws.drop (zeroRunLen ws 255), []) := by
          rw [hlen]; exact ih _ hrest
        have hsplit : List.replicate (zeroRunLen ws 255) zeroWord ++ ws.drop (zeroRunLen ws 255)
            = ws := by
          rw [← take_zeroRunLen ws 255, List.take_append_drop]
        simp [hu, hsplit]
      · by_cases ht255 : tagOf w = 255
        · -- all-non-zero word: tag 255, a count, then verbatim words
          have hck := verbRunLen_le_length ws 255
          have hrest : (ws.drop (verbRunLen ws 255)).length ≤ f := by
            simp only [List.length_drop]; omega
          have hlen : ws.length - verbRunLen ws 255 = (ws.drop (verbRunLen ws 255)).length := by
            simp [List.length_drop]
          rw [pack]
          simp only [ht0, ht255, if_false, if_true, eq_self_iff_true, List.length_cons,
            ite_true, ite_false]
          rw [if_neg (by decide : ¬(255:Nat) = 0)]
          rw [show ws.length + 1 = Nat.succ ws.length from rfl]
          simp only [unpack]
          rw [readWordTag_packedBytes255 w ht255]
          simp only [if_neg (by decide : ¬(255:Nat) = 0), if_pos rfl, if_pos hck]
          rw [takeWords_take ws (verbRunLen ws 255) hck]
          have hu : unpack (pack (ws.drop (verbRunLen ws 255))) (ws.length - verbRunLen ws 255)
              = some (ws.drop (verbRunLen ws 255), []) := by
            rw [hlen]; exact ih _ hrest
          simp [hu, List.take_append_drop]
        · -- mixed word: tag, its non-zero bytes, then the next word directly
          rw [pack]
          simp only [ht0, ht255, if_neg, List.length_cons, ite_false]
          rw [show ws.length + 1 = Nat.succ ws.length from rfl]
          simp only [unpack]
          rw [readWordTag_packedBytes]
          simp only [if_neg ht0, if_neg ht255]
          simp [ih ws hws]

/-- Decoding inverts encoding: unpacking the packed bytes of a word sequence
recovers it exactly and consumes the whole stream. -/
theorem unpack_pack (m : List Word8) : unpack (pack m) m.length = some (m, []) :=
  unpack_pack_aux m.length m le_rfl

end CapnProto

namespace CapnProto

theorem unpack_zero (s : List Nat) : unpack s 0 = some ([], s) := by
  simp [unpack]

theorem unpack_nil_succ (k : Nat) : unpack [] (k + 1) = none := by
  simp [unpack]

theorem unpack_nil_eq {n : Nat} {m : List Word8} (h : unpack [] n = some (m, [])) : m = [] := by
  cases n with
  | zero => rw [unpack_zero] at h; simp_all
  | succ k => rw [unpack_nil_succ] at h; cases h

theorem unpack_det_aux :
    ∀ fuel n n' s (m m' : List Word8),
      n ≤ fuel → unpack s n = some (m, []) → unpack s n' = some (m', []) → m = m' := by
  intro fuel
  induction fuel with
  | zero =>
    intro n n' s m m' hn h1 h2
    have hz : n = 0 := by omega
    subst hz
    rw [unpack_zero] at h1
    simp only [Option.some.injEq, Prod.mk.injEq] at h1
    obtain ⟨rfl, rfl⟩ := h1
    exact (unpack_nil_eq h2).symm
  | succ f ih =>
    intro n n' s m m' hn h1 h2
    cases n with
    | zero =>
      rw [unpack_zero] at h1
      simp only [Option.some.injEq, Prod.mk.injEq] at h1
      obtain ⟨rfl, rfl⟩ := h1
      exact (unpack_nil_eq h2).symm
    | succ k =>
      cases s with
      | nil => rw [unpack_nil_succ] at h1; cases h1
      | cons tag rest =>
        cases n' with
        | zero =>
          rw [unpack_zero] at h2
          simp at h2
        | succ k' =>
          rw [unpack] at h1 h2
          cases hrw : readWordTag tag rest with
          | none => rw [hrw] at h1; simp at h1
          | some p =>
            obtain ⟨w, rest1⟩ := p
            simp only [hrw] at h1 h2
            by_cases ht0 : tag = 0
            · rw [if_pos ht0] at h1 h2
              cases rest1 with
              | nil => simp at h1
              | cons c rest2 =>
                simp only [] at h1 h2
                by_cases hck : c ≤ k
                · rw [if_pos hck] at h1
                  by_cases hck' : c ≤ k'
                  · rw [if_pos hck'] at h2
                    cases hu1 : unpack rest2 (k - c) with
                    | none => rw [hu1] at h1; simp at h1
                    | some q1 =>
                      obtain ⟨ws1, r1⟩ := q1
                      simp only [hu1] at h1
                      cases hu2 : unpack rest2 (k' - c) with
                      | none => rw [hu2] at h2; simp at h2
                      | some q2 =>
                        obtain ⟨ws2, r2⟩ := q2
                        simp only [hu2] at h2
                        simp only [Option.some.injEq, Prod.mk.injEq] at h1 h2
                        obtain ⟨hm1, hr1⟩ := h1
                        obtain ⟨hm2, hr2⟩ := h2
                        subst hr1; subst hr2
                        have hws : ws1 = ws2 :=
                          ih (k - c) (k' - c) rest2 ws1 ws2 (by omega) hu1 hu2
                        rw [← hm1, ← hm2, hws]
                  · rw [if_neg hck'] at h2; cases h2
                · rw [if_neg hck] at h1; cases h1
            · by_cases ht255 : tag = 255
              · rw [if_neg ht0, if_pos ht255] at h1 h2
                cases rest1 with
                | nil => simp at h1
                | cons c rest2 =>
                  simp only [] at h1 h2
                  by_cases hck : c ≤ k
                  · rw [if_pos hck] at h1
                    by_cases hck' : c ≤ k'
                    · rw [if_pos hck'] at h2
                      cases htw : takeWords c rest2 with
                      | none => rw [htw] at h1; simp at h1
                      | some q =>
                        obtain ⟨run, rest3⟩ := q
                        simp only [htw] at h1 h2
                        cases hu1 : unpack rest3 (k - c) with
                        | none => rw [hu1] at h1; simp at h1
                        | some q1 =>
                          obtain ⟨ws1, r1⟩ := q1
                          simp only [hu1] at h1
                          cases hu2 : unpack rest3 (k' - c) with
                          | none => rw [hu2] at h2; simp at h2
                          | some q2 =>
                            obtain ⟨ws2, r2⟩ := q2
                            simp only [hu2] at h2
                            simp only [Option.some.injEq, Prod.mk.injEq] at h1 h2
                            obtain ⟨hm1, hr1⟩ := h1
                            obtain ⟨hm2, hr2⟩ := h2
                            subst hr1; subst hr2
                            have hws : ws1 = ws2 :=
                              ih (k - c) (k' - c) rest3 ws1 ws2 (by omega) hu1 hu2
                            rw [← hm1, ← hm2, hws]
                    · rw [if_neg hck'] at h2; cases h2
                  · rw [if_neg hck] at h1; cases h1
              · rw [if_neg ht0, if_neg ht255] at h1 h2
                cases hu1 : unpack rest1 k with
                | none => rw [hu1] at h1; simp at h1
                | some q1 =>
                  obtain ⟨ws1, r1⟩ := q1
                  simp only [hu1] at h1
                  cases hu2 : unpack rest1 k' with
                  | none => rw [hu2] at h2; simp at h2
                  | some q2 =>
                    obtain ⟨ws2, r2⟩ := q2
                    simp only [hu2] at h2
                    simp only [Option.some.injEq, Prod.mk.injEq] at h1 h2
                    obtain ⟨hm1, hr1⟩ := h1
                    obtain ⟨hm2, hr2⟩ := h2
                    subst hr1; subst hr2
                    have hws : ws1 = ws2 :=
                      ih k k' rest1 ws1 ws2 (by omega) hu1 hu2
                    rw [← hm1, ← hm2, hws]

/-- Full decodes of the same packed stream agree, whatever word count was
requested. -/
theorem unpack_det {n n' : Nat} {s : List Nat} {m m' : List Word8}
    (h1 : unpack s n = some (m, [])) (h2 : unpack s n' = some (m', [])) : m = m' :=
  unpack_det_aux n n n' s m m' le_rfl h1 h2

end CapnProto

namespace CapnProto

theorem zeroRunLen_max (ws : List Word8) (k : Nat) (hlt : zeroRunLen ws k < k)
    (w' : Word8) (rest : List Word8) (hd : ws.drop (zeroRunLen ws k) = w' :: rest) :
    w' ≠ zeroWord := by
  induction ws generalizing k w' rest with
  | nil => simp [zeroRunLen] at hd
  | cons w ws ih =>
    cases k with
    | zero => simp [zeroRunLen] at hlt
    | succ k =>
      simp only [zeroRunLen] at hlt hd
      by_cases hz : w = zeroWord
      · rw [if_pos hz] at hlt hd
        rw [List.drop_succ_cons] at hd
        exact ih k (by omega) w' rest hd
      · rw [if_neg hz] at hlt hd
        rw [List.drop_zero] at hd
        obtain ⟨rfl, rfl⟩ : w = w' ∧ ws = rest := by
          exact ⟨(List.cons.injEq _ _ _ _ ▸ hd).1, (List.cons.injEq _ _ _ _ ▸ hd).2⟩
        exact hz

theorem verbRunLen_max (ws : List Word8) (k : Nat) (hlt : verbRunLen ws k < k)
    (w' : Word8) (rest : List Word8) (hd : ws.drop (verbRunLen ws k) = w' :: rest) :
    2 ≤ countZeros w' := by
  induction ws generalizing k w' rest with
  | nil => simp [verbRunLen] at hd
  | cons w ws ih =>
    cases k with
    | zero => simp [verbRunLen] at hlt
    | succ k =>
      simp only [verbRunLen] at hlt hd
      by_cases hz : countZeros w < 2
      · rw [if_pos hz] at hlt hd
        rw [List.drop_succ_cons] at hd
        exact ih k (by omega) w' rest hd
      · rw [if_neg hz] at hlt hd
        rw [List.drop_zero] at hd
        have hw : w = w' := (List.cons.injEq _ _ _ _ ▸ hd).1
        rw [← hw]
        omega

theorem packedBytes_filter (w : Word8) :
    packedBytes w = (wordBytes w).filter (fun b => b ≠ 0) := by
  rcases w with ⟨b0, b1, b2, b3, b4, b5, b6, b7⟩
  by_cases h0 : b0 = 0 <;> by_cases h1 : b1 = 0 <;> by_cases h2 : b2 = 0 <;>
    by_cases h3 : b3 = 0 <;> by_cases h4 : b4 = 0 <;> by_cases h5 : b5 = 0 <;>
    by_cases h6 : b6 = 0 <;> by_cases h7 : b7 = 0 <;>
    simp [packedBytes, wordBytes, h0, h1, h2, h3, h4, h5, h6, h7]

end CapnProto

namespace CapnProto

/-- Claim C1: the packed codec round-trips in both directions. Decoding
(`PackedInputStream::read`) the output of encoding
(`PackedOutputStream::write`) yields the original framed message
byte-for-byte, and for every valid packed stream (one the encoder can
produce), re-encoding any complete decode of it yields the stream
byte-for-byte. -/
theorem packed_roundtrip_c1 :
    (∀ m : List Word8, unpack (pack m) m.length = some (m, [])) ∧
    (∀ (s : List Nat) (n : Nat) (m : List Word8),
      IsValidPacked s → unpack s n = some (m, []) → pack m = s) := by
  constructor
  · exact unpack_pack
  · rintro s n m ⟨m0, rfl⟩ h
    rw [unpack_det h (unpack_pack m0)]

/-- Witness for C1 at a concrete stream: `[5, 1, 2]` is a valid packed
stream, it decodes to one word, and re-encoding that decode gives the
stream back. -/
theorem packed_roundtrip_c1_witness :
    IsValidPacked [5, 1, 2] ∧ unpack [5, 1, 2] 1 = some ([⟨1, 0, 2, 0, 0, 0, 0, 0⟩], []) ∧
      pack [⟨1, 0, 2, 0, 0, 0, 0, 0⟩] = [5, 1, 2] := by
  have hval : IsValidPacked [5, 1, 2] :=
    ⟨[⟨1, 0, 2, 0, 0, 0, 0, 0⟩], by
      simp [pack, zeroRunLen, verbRunLen, packedBytes, tagOf, bitOf, zeroWord]⟩
  have hdec : unpack [5, 1, 2] 1 = some ([⟨1, 0, 2, 0, 0, 0, 0, 0⟩], []) := by
    simp [unpack, readWordTag, readByteIf, tagBit, zeroWord]
  exact ⟨hval, hdec, packed_roundtrip_c1.2 [5, 1, 2] 1 _ hval hdec⟩

/-- Claim C5: per input word `W` with bytes `b0..b7` the encoder emits a tag
byte whose bit `i` is set iff `bi ≠ 0`, followed by exactly the non-zero
bytes of `W` in order; a zero tag is followed by a count of at most 255
further all-zero words; a `0xFF` tag is followed by a count of at most 255
further words each containing fewer than two zero bytes and then those words
verbatim; both scans are maximal within their 255-word window. -/
theorem packed_encoder_c5 (w : Word8) (ws : List Word8) :
    (∀ i, i < 8 → (tagBit (tagOf w) i = true ↔ (wordBytes w).getD i 0 ≠ 0)) ∧
    packedBytes w = (wordBytes w).filter (fun b => b ≠ 0) ∧
    (tagOf w = 0 →
      pack (w :: ws) = tagOf w :: (packedBytes w ++
          zeroRunLen ws 255 :: pack (ws.drop (zeroRunLen ws 255))) ∧
      zeroRunLen ws 255 ≤ 255 ∧
      ws.take (zeroRunLen ws 255) = List.replicate (zeroRunLen ws 255) zeroWord ∧
      (zeroRunLen ws 255 < 255 → ∀ w' rest, ws.drop (zeroRunLen ws 255) = w' :: rest →
        w' ≠ zeroWord)) ∧
    (tagOf w = 255 →
      pack (w :: ws) = tagOf w :: (packedBytes w ++
          verbRunLen ws 255 :: ((ws.take (verbRunLen ws 255)).flatMap wordBytes ++
            pack (ws.drop (verbRunLen ws 255)))) ∧
      verbRunLen ws 255 ≤ 255 ∧
      (∀ w' ∈ ws.take (verbRunLen ws 255), countZeros w' < 2) ∧
      (verbRunLen ws 255 < 255 → ∀ w' rest, ws.drop (verbRunLen ws 255) = w' :: rest →
        2 ≤ countZeros w')) ∧
    (tagOf w ≠ 0 → tagOf w ≠ 255 →
      pack (w :: ws) = tagOf w :: (packedBytes w ++ pack ws)) := by
  refine ⟨?_, packedBytes_filter w, ?_, ?_, ?_⟩
  · intro i hi
    interval_cases i <;>
      simp [tagBit_tagOf0, tagBit_tagOf1, tagBit_tagOf2, tagBit_tagOf3,
        tagBit_tagOf4, tagBit_tagOf5, tagBit_tagOf6, tagBit_tagOf7, wordBytes]
  · intro ht
    refine ⟨?_, zeroRunLen_le ws 255, take_zeroRunLen ws 255,
      fun hlt w' rest hd => zeroRunLen_max ws 255 hlt w' rest hd⟩
    rw [pack]
    simp [ht]
  · intro ht
    refine ⟨?_, verbRunLen_le ws 255, mem_take_verbRunLen ws 255,
      fun hlt w' rest hd => verbRunLen_max ws 255 hlt w' rest hd⟩
    rw [pack]
    simp [ht]
  · intro ht0 ht255
    rw [pack]
    simp [ht0, ht255]

/-- Witness for C5: the encoder's three paths at concrete words. -/
theorem packed_encoder_c5_witness :
    pack [(⟨1, 1, 1, 1, 1, 1, 1, 1⟩ : Word8)] = [255, 1, 1, 1, 1, 1, 1, 1, 1, 0] ∧
    pack [zeroWord, zeroWord] = [0, 1] ∧
    pack [(⟨1, 0, 2, 0, 0, 0, 0, 0⟩ : Word8)] = [5, 1, 2] := by
  have ht255 : tagOf (⟨1, 1, 1, 1, 1, 1, 1, 1⟩ : Word8) = 255 := by simp [tagOf, bitOf]
  have h255 := (packed_encoder_c5 ⟨1, 1, 1, 1, 1, 1, 1, 1⟩ []).2.2.2.1 ht255
  have ht0 : tagOf zeroWord = 0 := by simp [tagOf, bitOf, zeroWord]
  have h0 := (packed_encoder_c5 zeroWord [zeroWord]).2.2.1 ht0
  have htm : tagOf (⟨1, 0, 2, 0, 0, 0, 0, 0⟩ : Word8) = 5 := by simp [tagOf, bitOf]
  have hm := (packed_encoder_c5 ⟨1, 0, 2, 0, 0, 0, 0, 0⟩ []).2.2.2.2
    (by rw [htm]; omega) (by rw [htm]; omega)
  refine ⟨?_, ?_, ?_⟩
  · rw [h255.1]
    simp [packedBytes, verbRunLen, pack, ht255]
  · rw [h0.1]
    simp [packedBytes, zeroRunLen, pack, ht0, zeroWord, tagOf, bitOf]
  · rw [hm]
    simp [packedBytes, pack, htm]

end CapnProto

namespace CapnProto

/-! ## Read limiter and segments (arena.h)

`ReadLimiter` holds the remaining word budget; `Arena::reportReadLimitReached`
records a validation error (`FAIL_VALIDATE_INPUT` in `ReaderArena`), modelled
by an error counter carried next to the budget. -/

/-- A `ReadLimiter` (remaining word budget) together with the count of
validation errors the owning arena has recorded. -/
structure RL where
  limit : Nat
  errs : Nat
deriving DecidableEq, Repr

/-- `ReadLimiter::canRead(amount, arena)`: on `amount > limit` the arena
reports the read limit reached (an error is recorded, the limit is left as
is) and `false` is returned; otherwise the limit is decremented by `amount`
and `true` is returned. -/
def canRead (amount : Nat) (st : RL) : Bool × RL :=
  if amount > st.limit then (false, ⟨st.limit, st.errs + 1⟩)
  else (true, ⟨st.limit - amount, st.errs⟩)

/-- A sequence of `canRead` calls against one limiter, returning each call's
result and the final limiter state. -/
def runReads : RL → List Nat → List Bool × RL
  | st, [] => ([], st)
  | st, a :: as =>
    let c := canRead a st
    let r := runReads c.2 as
    (c.1 :: r.1, r.2)

/-- `SegmentReader::containsInterval(from, to)`: both byte addresses must lie
within the segment's word array (`from ≥ ptr.begin() ∧ to ≤ ptr.end()`,
here relative to the segment start) and the limiter must grant
`(to - from) / 8` words; the limiter is only consulted once the geometric
bounds hold (`&&` short-circuits). -/
def containsInterval (sizeWords : Nat) (a b : Int) (st : RL) : Bool × RL :=
  if 0 ≤ a ∧ b ≤ 8 * (sizeWords : Int) then canRead (((b - a) / 8).toNat) st
  else (false, st)

theorem runReads_spec (amts : List Nat) (l e : Nat) :
    (runReads ⟨l, e⟩ amts).2.errs = e + (runReads ⟨l, e⟩ amts).1.count false ∧
    (runReads ⟨l, e⟩ amts).2.limit ≤ l ∧
    l - (runReads ⟨l, e⟩ amts).2.limit =
      ((((runReads ⟨l, e⟩ amts).1.zip amts).filter (fun p => p.1)).map (fun p => p.2)).sum ∧
    (∀ k, k < amts.length →
      ((runReads ⟨l, e⟩ amts).1.getD k true = false ↔
        (runReads ⟨l, e⟩ (amts.take k)).2.limit < amts.getD k 0)) := by
  induction amts generalizing l e with
  | nil => simp [runReads]
  | cons a as ih =>
    by_cases ha : a ≤ l
    · have hc : canRead a ⟨l, e⟩ = (true, ⟨l - a, e⟩) := by
        simp [canRead]; omega
      have ihs := ih (l - a) e
      refine ⟨?_, ?_, ?_, ?_⟩
      · simp [runReads, hc, ihs.1]
      · have := ihs.2.1; simp [runReads, hc]; omega
      · have h2 := ihs.2.1
        have h3 := ihs.2.2.1
        simp [runReads, hc]
        omega
      · intro k hk
        cases k with
        | zero =>
          simp [runReads, hc]
          omega
        | succ j =>
          have h4 := ihs.2.2.2 j (by simpa using Nat.lt_of_succ_lt_succ hk)
          simp only [runReads, hc, List.take_succ_cons, List.getD_cons_succ] at h4 ⊢
          exact h4
    · have hc : canRead a ⟨l, e⟩ = (false, ⟨l, e + 1⟩) := by
        simp [canRead]; omega
      have ihs := ih l (e + 1)
      refine ⟨?_, ?_, ?_, ?_⟩
      · simp [runReads, hc, ihs.1]; omega
      · have := ihs.2.1; simp [runReads, hc]; omega
      · have h2 := ihs.2.1
        have h3 := ihs.2.2.1
        simp [runReads, hc]
        omega
      · intro k hk
        cases k with
        | zero =>
          simp [runReads, hc]
          omega
        | succ j =>
          have h4 := ihs.2.2.2 j (by simpa using Nat.lt_of_succ_lt_succ hk)
          simp only [runReads, hc, List.take_succ_cons, List.getD_cons_succ] at h4 ⊢
          exact h4

end CapnProto

namespace CapnProto

/-- Claim C3, counterexample: with 2 words of budget left, a 5-word read
fails (recording an error, leaving the limit at 2), yet the very next 1-word
read succeeds — pointer resolution after the first failed `canRead` does not
behave as "null" regardless of the size of the subsequent read. -/
theorem read_limit_c3_counterexample :
    canRead 5 ⟨2, 0⟩ = (false, ⟨2, 1⟩) ∧ canRead 1 ⟨2, 1⟩ = (true, ⟨1, 1⟩) ∧
      (runReads ⟨2, 0⟩ [5, 1]).1 = [false, true] := by
  refine ⟨rfl, rfl, rfl⟩

/-- Claim C3, amended: a failed `canRead` records an error and leaves the
limit unchanged, so a subsequent resolution is refused (behaves as "null",
with an error recorded) exactly when its own word count exceeds the
remaining limit — not unconditionally; the cumulative words successfully
dereferenced never exceed the traversal limit `L`. -/
theorem read_limit_c3_amended (l e : Nat) (amts : List Nat) :
    (runReads ⟨l, e⟩ amts).2.errs = e + (runReads ⟨l, e⟩ amts).1.count false ∧
    l - (runReads ⟨l, e⟩ amts).2.limit =
      ((((runReads ⟨l, e⟩ amts).1.zip amts).filter (fun p => p.1)).map (fun p => p.2)).sum ∧
    ((((runReads ⟨l, e⟩ amts).1.zip amts).filter (fun p => p.1)).map (fun p => p.2)).sum ≤ l ∧
    (∀ k, k < amts.length →
      ((runReads ⟨l, e⟩ amts).1.getD k true = false ↔
        (runReads ⟨l, e⟩ (amts.take k)).2.limit < amts.getD k 0)) := by
  obtain ⟨h1, h2, h3, h4⟩ := runReads_spec amts l e
  exact ⟨h1, h3, by omega, h4⟩

/-- Witness for the amended C3 on the counterexample trace. -/
theorem read_limit_c3_amended_witness :
    (runReads ⟨2, 0⟩ [5, 1]).2.errs = 0 + (runReads ⟨2, 0⟩ [5, 1]).1.count false ∧
      ((runReads ⟨2, 0⟩ [5, 1]).1.getD 0 true = false ↔
        (runReads ⟨2, 0⟩ ([5, 1].take 0)).2.limit < [5, 1].getD 0 0) := by
  obtain ⟨h1, _, _, h4⟩ := read_limit_c3_amended 2 0 [5, 1]
  exact ⟨h1, h4 0 (by decide)⟩

theorem canRead_true {amount l e : Nat} (h : amount ≤ l) :
    canRead amount ⟨l, e⟩ = (true, ⟨l - amount, e⟩) := by
  simp [canRead]; omega

theorem canRead_false {amount l e : Nat} (h : l < amount) :
    canRead amount ⟨l, e⟩ = (false, ⟨l, e + 1⟩) := by
  simp [canRead]; omega

/-- Claim C7: `containsInterval(from, to)` is true iff both endpoints lie in
the segment and the limiter grants `(to − from)/8` words; on success the
limiter is decremented by exactly that word count; on limiter exhaustion
(endpoints in bounds but budget too small) an error is recorded through the
arena and the call returns false with the limit unchanged. -/
theorem contains_interval_c7 (sizeWords l e : Nat) (a b : Int) (_hab : a ≤ b) :
    ((containsInterval sizeWords a b ⟨l, e⟩).1 = true ↔
      (0 ≤ a ∧ b ≤ 8 * (sizeWords : Int) ∧ ((b - a) / 8).toNat ≤ l)) ∧
    ((containsInterval sizeWords a b ⟨l, e⟩).1 = true →
      (containsInterval sizeWords a b ⟨l, e⟩).2 = ⟨l - ((b - a) / 8).toNat, e⟩) ∧
    (0 ≤ a → b ≤ 8 * (sizeWords : Int) → l < ((b - a) / 8).toNat →
      containsInterval sizeWords a b ⟨l, e⟩ = (false, ⟨l, e + 1⟩)) := by
  by_cases hb : 0 ≤ a ∧ b ≤ 8 * (sizeWords : Int)
  · rw [containsInterval, if_pos hb]
    by_cases hl : ((b - a) / 8).toNat ≤ l
    · rw [canRead_true hl]
      exact ⟨by simp [hb.1, hb.2, hl], fun _ => rfl, fun _ _ h => absurd hl (by omega)⟩
    · rw [canRead_false (by omega)]
      exact ⟨by simp [hl], fun hres => by simp at hres, fun _ _ _ => rfl⟩
  · rw [containsInterval, if_neg hb]
    refine ⟨?_, fun hres => by simp at hres, fun h1 h2 _ => absurd ⟨h1, h2⟩ hb⟩
    simp only [Bool.false_eq_true, false_iff]
    intro hc
    exact absurd ⟨hc.1, hc.2.1⟩ hb

/-- Witness for C7: a 2-word segment, budget 1: reading the first word
succeeds and decrements the budget; reading both words hits the limiter,
records an error and is refused. -/
theorem contains_interval_c7_witness :
    containsInterval 2 0 8 ⟨1, 0⟩ = (true, ⟨0, 0⟩) ∧
      containsInterval 2 0 16 ⟨1, 0⟩ = (false, ⟨1, 1⟩) := by
  obtain ⟨hiff, hdec, _⟩ := contains_interval_c7 2 1 0 0 8 (by omega)
  obtain ⟨_, _, hex⟩ := contains_interval_c7 2 1 0 0 16 (by omega)
  have h1 : (containsInterval 2 0 8 ⟨1, 0⟩).1 = true :=
    hiff.mpr ⟨by omega, by omega, by decide⟩
  have h2 : (containsInterval 2 0 8 ⟨1, 0⟩).2 = (⟨0, 0⟩ : RL) := by
    rw [hdec h1]; decide
  refine ⟨?_, hex (by omega) (by omega) (by decide)⟩
  rw [Prod.ext_iff]
  exact ⟨h1, h2⟩

end CapnProto

namespace CapnProto

/-! ## Builder segments (arena.h `SegmentBuilder`)

A builder segment: `size` words of memory (`mem`, indexed by word), and the
bump pointer `pos` (a word index; `ptr.begin()` is index 0, `ptr.end()` is
index `size`). -/

/-- A `SegmentBuilder`: word-indexed memory, its word size, and the bump
allocation pointer `pos`. -/
structure BSeg where
  mem : Nat → Nat
  size : Nat
  pos : Nat

/-- `SegmentBuilder::allocate(amount)`: `nullptr` when
`amount > intervalLength(pos, ptr.end())`, else the old `pos`, advancing
`pos` by `amount`. -/
def segAllocate (s : BSeg) (amount : Nat) : Option (Nat × BSeg) :=
  if amount > s.size - s.pos then none
  else some (s.pos, { s with pos := s.pos + amount })

/-- Store one word. -/
def writeW (s : BSeg) (i v : Nat) : BSeg :=
  { s with mem := Function.update s.mem i v }

/-- `memset(dst, 0, n * sizeof(word))` on builder memory. -/
def memsetSeg (s : BSeg) (dst : Nat) : Nat → BSeg
  | 0 => s
  | Nat.succ n => writeW (memsetSeg s dst n) (dst + n) 0

/-- `SegmentBuilder::currentlyAllocated()`: the prefix `[begin, pos)`. -/
def currentlyAllocated (s : BSeg) : List Nat :=
  (List.range s.pos).map s.mem

/-- `SegmentBuilder::reset()`: zero the allocated prefix, return `pos` to the
segment start. -/
def segReset (s : BSeg) : BSeg :=
  { memsetSeg s 0 s.pos with pos := 0 }

theorem memsetSeg_size (s : BSeg) (dst n : Nat) : (memsetSeg s dst n).size = s.size := by
  induction n with
  | zero => rfl
  | succ n ih => simp [memsetSeg, writeW, ih]

theorem memsetSeg_pos (s : BSeg) (dst n : Nat) : (memsetSeg s dst n).pos = s.pos := by
  induction n with
  | zero => rfl
  | succ n ih => simp [memsetSeg, writeW, ih]

theorem memsetSeg_mem (s : BSeg) (dst n a : Nat) :
    (memsetSeg s dst n).mem a = if dst ≤ a ∧ a < dst + n then 0 else s.mem a := by
  induction n with
  | zero =>
    rw [memsetSeg, if_neg (by omega)]
  | succ n ih =>
    simp only [memsetSeg, writeW, Function.update_apply, ih]
    split_ifs <;> omega

/-- Claim C10: `SegmentBuilder` keeps `0 ≤ pos ≤ size`; `allocate(amount)`
fails exactly when `amount` exceeds `available() = size − pos` and otherwise
returns the old `pos` and advances `pos` by exactly `amount`;
`currentlyAllocated()` is the prefix `[start, pos)`; `reset()` zeroes exactly
that prefix and returns `pos` to the start. -/
theorem segment_builder_c10 (s : BSeg) (amount : Nat) (hinv : s.pos ≤ s.size) :
    (segAllocate s amount = none ↔ s.size - s.pos < amount) ∧
    (∀ r s', segAllocate s amount = some (r, s') →
      r = s.pos ∧ s'.pos = s.pos + amount ∧ s'.pos ≤ s'.size ∧
      s'.mem = s.mem ∧ s'.size = s.size) ∧
    ((currentlyAllocated s).length = s.pos ∧
      ∀ i, i < s.pos → (currentlyAllocated s).getD i 0 = s.mem i) ∧
    ((segReset s).pos = 0 ∧ (segReset s).size = s.size ∧ (segReset s).pos ≤ (segReset s).size ∧
      ∀ a, (segReset s).mem a = if a < s.pos then 0 else s.mem a) := by
  refine ⟨?_, ?_, ⟨?_, ?_⟩, ?_, ?_, ?_, ?_⟩
  · unfold segAllocate
    split_ifs with h
    · simp; omega
    · simp; omega
  · intro r s' h
    unfold segAllocate at h
    split_ifs at h with hle
    simp only [Option.some.injEq, Prod.mk.injEq] at h
    obtain ⟨rfl, rfl⟩ := h
    refine ⟨rfl, rfl, by simp; omega, rfl, rfl⟩
  · simp [currentlyAllocated]
  · intro i hi
    simp [currentlyAllocated, List.getD_eq_getElem?_getD, hi]
  · rfl
  · simp [segReset, memsetSeg_size]
  · simp [segReset, memsetSeg_size]
  · intro a
    simp only [segReset, memsetSeg_mem]
    split_ifs <;> omega

/-- Witness for C10 on a concrete 4-word segment with 2 words allocated. -/
theorem segment_builder_c10_witness :
    segAllocate ⟨fun i => i + 10, 4, 2⟩ 3 = none ∧
    (∀ r s', segAllocate ⟨fun i => i + 10, 4, 2⟩ 2 = some (r, s') →
      r = 2 ∧ s'.pos = 4) ∧
    currentlyAllocated ⟨fun i => i + 10, 4, 2⟩ = [10, 11] ∧
    (segReset ⟨fun i => i + 10, 4, 2⟩).mem 1 = 0 ∧
    (segReset ⟨fun i => i + 10, 4, 2⟩).mem 2 = 12 := by
  obtain ⟨hnone, _, _, _⟩ := segment_builder_c10 ⟨fun i => i + 10, 4, 2⟩ 3 (by decide)
  obtain ⟨_, hsome, _, _, _, _, hreset⟩ := segment_builder_c10 ⟨fun i => i + 10, 4, 2⟩ 2 (by decide)
  refine ⟨hnone.mpr (by decide), ?_, by decide, ?_, ?_⟩
  · intro r s' h
    obtain ⟨h1, h2, _⟩ := hsome r s' h
    exact ⟨h1, h2⟩
  · rw [hreset 1]; rfl
  · rw [hreset 2]; rfl

end CapnProto

namespace CapnProto

/-! ## Wire pointers (layout.c++ `WirePointer`)

A wire pointer is one 64-bit word: the low 32 bits are `offsetAndKind`
(kind in bits 0-1), the high 32 bits are the kind-dependent size half
(`structRef` / `listRef` / `farRef`). Words are modelled as `Nat`; all
accessors read exactly the bit ranges the source reads. -/

/-- Low 32 bits of a word (`offsetAndKind`). -/
def u32lo (w : Nat) : Nat := w % 2 ^ 32

/-- High 32 bits of a word (`upper32Bits`). -/
def u32hi (w : Nat) : Nat := w / 2 ^ 32 % 2 ^ 32

/-- `WirePointer::kind()`: low two bits (STRUCT=0, LIST=1, FAR=2). -/
def wpKind (w : Nat) : Nat := u32lo w % 4

/-- `WirePointer::isNull()`: `offsetAndKind == 0 && upper32Bits == 0`. -/
def wpNull (w : Nat) : Prop := u32lo w = 0 ∧ u32hi w = 0

instance (w : Nat) : Decidable (wpNull w) := by unfold wpNull; infer_instance

/-- Reinterpret the low 32 bits as a signed `int32_t`. -/
def toInt32 (n : Nat) : Int :=
  if n % 2 ^ 32 < 2 ^ 31 then (n % 2 ^ 32 : Int) else (n % 2 ^ 32 : Int) - 2 ^ 32

/-- The signed word offset of a STRUCT/LIST pointer:
`static_cast<int32_t>(offsetAndKind.get()) >> 2` (arithmetic shift). -/
def wpOffset (w : Nat) : Int := toInt32 (u32lo w) / 4

/-- `WirePointer::target()` as a word index, for a pointer stored at word
index `idx`: one past the pointer plus the signed offset. -/
def wpTarget (idx : Nat) (w : Nat) : Int := (idx : Int) + 1 + wpOffset w

/-- `setKindAndTarget(kind, target)`: `((target - this - 1) << 2) | kind`
truncated to 32 bits, `d` being the signed word distance. -/
def encodeOAK (d : Int) (kind : Nat) : Nat := ((d * 4 + kind) % (2 ^ 32 : Int)).toNat

/-- `structRef.dataSize` (16 bits). -/
def structDataSize (w : Nat) : Nat := u32hi w % 2 ^ 16

/-- `structRef.ptrCount` (16 bits). -/
def structPtrCount (w : Nat) : Nat := u32hi w / 2 ^ 16 % 2 ^ 16

/-- `listRef.elementSize()`: low 3 bits of the upper half. -/
def listElemSizeCode (w : Nat) : Nat := u32hi w % 8

/-- `listRef.elementCount()` (or inline-composite word count): upper half
shifted right by 3. -/
def listElemCount (w : Nat) : Nat := u32hi w / 8

/-- `inlineCompositeListElementCount()`: `offsetAndKind >> 2` (unsigned). -/
def icElementCount (w : Nat) : Nat := u32lo w / 4

/-- `farPositionInSegment()`: `offsetAndKind >> 3` (unsigned). -/
def farPosition (w : Nat) : Nat := u32lo w / 8

/-- `isDoubleFar()`: bit 2 of `offsetAndKind`. -/
def farIsDouble (w : Nat) : Prop := u32lo w / 4 % 2 = 1

instance (w : Nat) : Decidable (farIsDouble w) := by unfold farIsDouble; infer_instance

/-- `farRef.segmentId`. -/
def farSegId (w : Nat) : Nat := u32hi w

/-- Byte `i` (0-7, little-endian) of a word. -/
def byteOfWord (w i : Nat) : Nat := w / 256 ^ i % 256

/-- Modelled from the spec: `dataBitsPerElement` of `layout.h` (the header is
not under `src/`): element size codes VOID=0, BIT=1 (1 bit), BYTE=2 (8),
TWO_BYTES=3 (16), FOUR_BYTES=4 (32), EIGHT_BYTES=5 (64), POINTER=6 (0 data
bits), INLINE_COMPOSITE=7 (0). -/
def dataBitsPerElement : Nat → Nat
  | 1 => 1
  | 2 => 8
  | 3 => 16
  | 4 => 32
  | 5 => 64
  | _ => 0

/-- Modelled from the spec: `pointersPerElement` of `layout.h` (not under
`src/`): one pointer per element for POINTER=6, zero otherwise. -/
def pointersPerElement : Nat → Nat
  | 6 => 1
  | _ => 0

/-- `WireHelpers::roundUpToWords` on a bit count. -/
def roundBitsUpToWords (bits : Nat) : Nat := (bits + 63) / 64

/-- `WireHelpers::roundUpToWords` on a byte count. -/
def roundBytesUpToWords (bytes : Nat) : Nat := (bytes + 7) / 8

/-! ## Reader-side layout engine (layout.c++ read path)

A single-segment reader arena: `mem`/`size` is segment 0 and
`tryGetSegment(id)` succeeds only for `id = 0`. Memory is immutable on the
reader side; the mutable read-limiter/error state `RL` is threaded through
explicitly. -/

/-- The (single) segment of a reader arena. -/
structure RSeg where
  mem : Nat → Nat
  size : Nat

/-- `ReaderArena::reportReadLimitReached` / `VALIDATE_INPUT` failure:
record one validation error. -/
def reportErr (rl : RL) : RL := ⟨rl.limit, rl.errs + 1⟩

/-- `WireHelpers::boundsCheck` over word indices `[a, b)`:
`containsInterval` on the corresponding byte addresses. -/
def boundsCheckW (sg : RSeg) (rl : RL) (a b : Int) : Bool × RL :=
  containsInterval sg.size (8 * a) (8 * b) rl

/-- `WireHelpers::followFars` (reader form) on a single-segment arena:
resolve `ref` at word index `refIdx` to the final pointer location and the
word index of the object's first word. `none` models the source's `nullptr`
return after a recorded validation error (unknown segment, out-of-bounds
landing pad). -/
def followFars (sg : RSeg) (rl : RL) (refIdx : Nat) : Option (Nat × Int) × RL :=
  let v := sg.mem refIdx
  if wpKind v = 2 then
    if farSegId v ≠ 0 then (none, reportErr rl)
    else
      let padPos := farPosition v
      let padWords : Nat := if farIsDouble v then 2 else 1
      let bc := boundsCheckW sg rl (padPos : Int) ((padPos : Int) + padWords)
      if bc.1 = false then (none, reportErr bc.2)
      else if ¬ farIsDouble v then
        (some (padPos, wpTarget padPos (sg.mem padPos)), bc.2)
      else
        let pad0 := sg.mem padPos
        if farSegId pad0 ≠ 0 then (none, reportErr bc.2)
        else (some (padPos + 1, (farPosition pad0 : Int)), bc.2)
  else (some (refIdx, wpTarget refIdx v), rl)

end CapnProto

namespace CapnProto

/-- A `StructReader`: word index of the data section, word index of the
pointer section, data size in bits, pointer count, and the remaining nesting
limit. -/
structure SR where
  dataIdx : Nat
  psecIdx : Nat
  dataBits : Nat
  pcount : Nat
  nesting : Nat
deriving DecidableEq, Repr

/-- Result of `readStructPointer`: the default (`StructReader()` when the
default pointer is null, otherwise the default value's contents — not
further interpreted here), or a reader onto the message. -/
inductive SRes where
  | dflt : SRes
  | ok : SR → SRes
deriving DecidableEq, Repr

/-- A `ListReader`: word index of the first element (already advanced into
the pointer section when a pointer list was expected of a struct list),
element count, element stride in bits, per-element data size in bits and
pointer count, and the remaining nesting limit. -/
structure LR where
  ptrIdx : Nat
  elemCount : Nat
  stepBits : Nat
  structDataBits : Nat
  structPtrCount : Nat
  nesting : Nat
deriving DecidableEq, Repr

/-- Result of `readListPointer`. -/
inductive LRes where
  | dflt : LRes
  | ok : LR → LRes
deriving DecidableEq, Repr

/-- Result of `readTextPointer`: the passed-in default, or a view (byte
offset and length, the latter excluding the NUL terminator). -/
inductive TRes where
  | dflt : TRes
  | view : Nat → Nat → TRes
deriving DecidableEq, Repr

/-- Result of `readDataPointer`. -/
inductive DRes where
  | dflt : DRes
  | view : Nat → Nat → DRes
deriving DecidableEq, Repr

/-- `WireHelpers::readStructPointer` (default value not interpreted:
both the null-ref and validation-failure paths yield `.dflt`). -/
def readStructPointer (sg : RSeg) (rl : RL) (ref : Option Nat) (nesting : Nat) :
    SRes × RL :=
  match ref with
  | none => (.dflt, rl)
  | some refIdx =>
    if wpNull (sg.mem refIdx) then (.dflt, rl)
    else if nesting = 0 then (.dflt, reportErr rl)
    else
      match followFars sg rl refIdx with
      | (none, rl1) => (.dflt, rl1)
      | (some (refIdx2, tgt), rl1) =>
        let rv := sg.mem refIdx2
        if wpKind rv ≠ 0 then (.dflt, reportErr rl1)
        else
          let ds := structDataSize rv
          let pc := structPtrCount rv
          let bc := boundsCheckW sg rl1 tgt (tgt + ds + pc)
          if bc.1 = false then (.dflt, reportErr bc.2)
          else (.ok ⟨tgt.toNat, tgt.toNat + ds, ds * 64, pc, nesting - 1⟩, bc.2)

/-- `WireHelpers::readListPointer` (both branches; `expected` is the
expected `FieldSize` code). -/
def readListPointer (sg : RSeg) (rl : RL) (ref : Option Nat) (expected : Nat)
    (nesting : Nat) : LRes × RL :=
  match ref with
  | none => (.dflt, rl)
  | some refIdx =>
    if wpNull (sg.mem refIdx) then (.dflt, rl)
    else if nesting = 0 then (.dflt, reportErr rl)
    else
      match followFars sg rl refIdx with
      | (none, rl1) => (.dflt, rl1)
      | (some (refIdx2, tgt), rl1) =>
        let rv := sg.mem refIdx2
        if wpKind rv ≠ 1 then (.dflt, reportErr rl1)
        else if listElemSizeCode rv = 7 then
          let wordCount := listElemCount rv
          let ptr := tgt + 1
          let bc := boundsCheckW sg rl1 (ptr - 1) (ptr + wordCount)
          if bc.1 = false then (.dflt, reportErr bc.2)
          else
            let tagW := sg.mem tgt.toNat
            if wpKind tagW ≠ 0 then (.dflt, reportErr bc.2)
            else
              let cnt := icElementCount tagW
              let wpe := structDataSize tagW + structPtrCount tagW
              if cnt * wpe > wordCount then (.dflt, reportErr bc.2)
              else
                match expected with
                | 1 => (.dflt, reportErr bc.2)
                | 2 | 3 | 4 | 5 =>
                  if structDataSize tagW = 0 then (.dflt, reportErr bc.2)
                  else (.ok ⟨ptr.toNat, cnt, wpe * 64, structDataSize tagW * 64,
                    structPtrCount tagW, nesting - 1⟩, bc.2)
                | 6 =>
                  if structPtrCount tagW = 0 then (.dflt, reportErr bc.2)
                  else (.ok ⟨(ptr + structDataSize tagW).toNat, cnt, wpe * 64,
                    structDataSize tagW * 64, structPtrCount tagW, nesting - 1⟩, bc.2)
                | _ => (.ok ⟨ptr.toNat, cnt, wpe * 64, structDataSize tagW * 64,
                    structPtrCount tagW, nesting - 1⟩, bc.2)
        else
          let es := listElemSizeCode rv
          let ds := dataBitsPerElement es
          let pc := pointersPerElement es
          let step := ds + pc * 64
          let ec := listElemCount rv
          let bc := boundsCheckW sg rl1 tgt (tgt + roundBitsUpToWords (ec * step))
          if bc.1 = false then (.dflt, reportErr bc.2)
          else if dataBitsPerElement expected > ds then (.dflt, reportErr bc.2)
          else if pointersPerElement expected > pc then (.dflt, reportErr bc.2)
          else (.ok ⟨tgt.toNat, ec, step, ds, pc, nesting - 1⟩, bc.2)

/-- Byte at byte address `b` of the segment (words are little-endian). -/
def byteAt (sg : RSeg) (b : Nat) : Nat := byteOfWord (sg.mem (b / 8)) (b % 8)

/-- `WireHelpers::readTextPointer`. -/
def readTextPointer (sg : RSeg) (rl : RL) (ref : Option Nat) : TRes × RL :=
  match ref with
  | none => (.dflt, rl)
  | some refIdx =>
    if wpNull (sg.mem refIdx) then (.dflt, rl)
    else
      match followFars sg rl refIdx with
      | (none, rl1) => (.dflt, rl1)
      | (some (refIdx2, tgt), rl1) =>
        let rv := sg.mem refIdx2
        let size := listElemCount rv
        if wpKind rv ≠ 1 then (.dflt, reportErr rl1)
        else if listElemSizeCode rv ≠ 2 then (.dflt, reportErr rl1)
        else
          let bc := boundsCheckW sg rl1 tgt (tgt + roundBytesUpToWords size)
          if bc.1 = false then (.dflt, reportErr bc.2)
          else if size = 0 then (.dflt, reportErr bc.2)
          else if byteAt sg (8 * tgt.toNat + (size - 1)) ≠ 0 then (.dflt, reportErr bc.2)
          else (.view (8 * tgt.toNat) (size - 1), bc.2)

/-- `WireHelpers::readDataPointer`. -/
def readDataPointer (sg : RSeg) (rl : RL) (ref : Option Nat) : DRes × RL :=
  match ref with
  | none => (.dflt, rl)
  | some refIdx =>
    if wpNull (sg.mem refIdx) then (.dflt, rl)
    else
      match followFars sg rl refIdx with
      | (none, rl1) => (.dflt, rl1)
      | (some (refIdx2, tgt), rl1) =>
        let rv := sg.mem refIdx2
        let size := listElemCount rv
        if wpKind rv ≠ 1 then (.dflt, reportErr rl1)
        else if listElemSizeCode rv ≠ 2 then (.dflt, reportErr rl1)
        else
          let bc := boundsCheckW sg rl1 tgt (tgt + roundBytesUpToWords size)
          if bc.1 = false then (.dflt, reportErr bc.2)
          else (.view (8 * tgt.toNat) size, bc.2)

/-- `StructReader::getStructField`: a pointer index past `pointerCount` reads
through a null ref. -/
def getStructField (sg : RSeg) (rl : RL) (sr : SR) (ptrIndex : Nat) : SRes × RL :=
  readStructPointer sg rl
    (if ptrIndex ≥ sr.pcount then none else some (sr.psecIdx + ptrIndex)) sr.nesting

/-- `StructReader::getListField`. -/
def getListField (sg : RSeg) (rl : RL) (sr : SR) (ptrIndex : Nat) (expected : Nat) :
    LRes × RL :=
  readListPointer sg rl
    (if ptrIndex ≥ sr.pcount then none else some (sr.psecIdx + ptrIndex)) expected sr.nesting

/-- `StructReader::getBlobField<Text>`. -/
def getBlobFieldText (sg : RSeg) (rl : RL) (sr : SR) (ptrIndex : Nat) : TRes × RL :=
  readTextPointer sg rl
    (if ptrIndex ≥ sr.pcount then none else some (sr.psecIdx + ptrIndex))

/-- `StructReader::getBlobField<Data>`. -/
def getBlobFieldData (sg : RSeg) (rl : RL) (sr : SR) (ptrIndex : Nat) : DRes × RL :=
  readDataPointer sg rl
    (if ptrIndex ≥ sr.pcount then none else some (sr.psecIdx + ptrIndex))

/-- `StructReader::isPointerFieldNull`:
`ptrIndex >= pointerCount || (pointers + ptrIndex)->isNull()`. -/
def isPointerFieldNull (sg : RSeg) (sr : SR) (ptrIndex : Nat) : Bool :=
  decide (ptrIndex ≥ sr.pcount) || decide (wpNull (sg.mem (sr.psecIdx + ptrIndex)))

end CapnProto

namespace CapnProto

/-- Claim C9: for a pointer-field index at or past `pointerCount` (a field a
newer schema added), `getStructField` / `getListField` / `getBlobField`
return the default value rather than failing — identically to reading a null
pointer, with no error recorded and no limiter consumption — and
`isPointerFieldNull` returns true; an in-range null pointer gives the very
same results. -/
theorem struct_reader_c9 (sg : RSeg) (rl : RL) (sr : SR) (i expected : Nat)
    (hi : sr.pcount ≤ i) :
    getStructField sg rl sr i = (SRes.dflt, rl) ∧
    getStructField sg rl sr i = readStructPointer sg rl none sr.nesting ∧
    getListField sg rl sr i expected = (LRes.dflt, rl) ∧
    getListField sg rl sr i expected = readListPointer sg rl none expected sr.nesting ∧
    getBlobFieldText sg rl sr i = (TRes.dflt, rl) ∧
    getBlobFieldData sg rl sr i = (DRes.dflt, rl) ∧
    isPointerFieldNull sg sr i = true ∧
    (∀ j, j < sr.pcount → wpNull (sg.mem (sr.psecIdx + j)) →
      getStructField sg rl sr j = getStructField sg rl sr i ∧
      getBlobFieldText sg rl sr j = getBlobFieldText sg rl sr i ∧
      isPointerFieldNull sg sr j = true) := by
  have hge : i ≥ sr.pcount := hi
  refine ⟨?_, ?_, ?_, ?_, ?_, ?_, ?_, ?_⟩
  · simp [getStructField, hge, readStructPointer]
  · simp [getStructField, hge]
  · simp [getListField, hge, readListPointer]
  · simp [getListField, hge]
  · simp [getBlobFieldText, hge, readTextPointer]
  · simp [getBlobFieldData, hge, readDataPointer]
  · simp [isPointerFieldNull, hge]
  · intro j hj hnull
    have hlt : ¬ j ≥ sr.pcount := by omega
    refine ⟨?_, ?_, ?_⟩
    · simp [getStructField, hge, hlt, readStructPointer, hnull]
    · simp [getBlobFieldText, hge, hlt, readTextPointer, hnull]
    · simp [isPointerFieldNull, hnull]

/-- Witness for C9: a reader with 2 pointer fields; index 5 is past the end,
and index 0 holds a null pointer. -/
theorem struct_reader_c9_witness :
    getStructField ⟨fun _ => 0, 4⟩ ⟨100, 0⟩ ⟨0, 2, 0, 2, 8⟩ 5 = (SRes.dflt, ⟨100, 0⟩) ∧
    isPointerFieldNull ⟨fun _ => 0, 4⟩ ⟨0, 2, 0, 2, 8⟩ 5 = true ∧
    getStructField ⟨fun _ => 0, 4⟩ ⟨100, 0⟩ ⟨0, 2, 0, 2, 8⟩ 0 =
      getStructField ⟨fun _ => 0, 4⟩ ⟨100, 0⟩ ⟨0, 2, 0, 2, 8⟩ 5 := by
  obtain ⟨h1, _, _, _, _, _, h7, h8⟩ :=
    struct_reader_c9 ⟨fun _ => 0, 4⟩ ⟨100, 0⟩ ⟨0, 2, 0, 2, 8⟩ 5 0 (by decide)
  exact ⟨h1, h7, (h8 0 (by decide) (by decide)).1⟩

end CapnProto

namespace CapnProto

theorem followFars_direct (sg : RSeg) (rl : RL) (refIdx : Nat)
    (h : wpKind (sg.mem refIdx) ≠ 2) :
    followFars sg rl refIdx = (some (refIdx, wpTarget refIdx (sg.mem refIdx)), rl) := by
  simp [followFars, h]

theorem boundsCheckW_errs (sg : RSeg) (rl : RL) (a b : Int) :
    rl.errs ≤ (boundsCheckW sg rl a b).2.errs := by
  unfold boundsCheckW containsInterval canRead
  split_ifs <;> simp_all

theorem boundsCheckW_true_errs (sg : RSeg) (rl : RL) (a b : Int)
    (h : (boundsCheckW sg rl a b).1 = true) :
    (boundsCheckW sg rl a b).2.errs = rl.errs := by
  unfold boundsCheckW containsInterval canRead at h ⊢
  split_ifs at h ⊢
  all_goals simp_all

/-- Claim C8: `readTextPointer` yields a text view of length
`elementCount − 1` exactly when the target pointer is a LIST of BYTE
elements, in bounds (geometric bounds and the read limiter), with
`elementCount > 0` and a 0x00 final byte; in every other case it records a
validation error and returns the default. Stated for a non-null, non-far
pointer (a null pointer takes the default without an error before any
target exists). -/
theorem read_text_c8 (sg : RSeg) (rl : RL) (r : Nat)
    (hnn : ¬ wpNull (sg.mem r)) (hnf : wpKind (sg.mem r) ≠ 2) :
    ((wpKind (sg.mem r) = 1 ∧ listElemSizeCode (sg.mem r) = 2 ∧
      (boundsCheckW sg rl (wpTarget r (sg.mem r))
        (wpTarget r (sg.mem r) + roundBytesUpToWords (listElemCount (sg.mem r)))).1 = true ∧
      0 < listElemCount (sg.mem r) ∧
      byteAt sg (8 * (wpTarget r (sg.mem r)).toNat + (listElemCount (sg.mem r) - 1)) = 0) →
      readTextPointer sg rl (some r) =
        (TRes.view (8 * (wpTarget r (sg.mem r)).toNat) (listElemCount (sg.mem r) - 1),
         (boundsCheckW sg rl (wpTarget r (sg.mem r))
           (wpTarget r (sg.mem r) + roundBytesUpToWords (listElemCount (sg.mem r)))).2)) ∧
    (¬ (wpKind (sg.mem r) = 1 ∧ listElemSizeCode (sg.mem r) = 2 ∧
      (boundsCheckW sg rl (wpTarget r (sg.mem r))
        (wpTarget r (sg.mem r) + roundBytesUpToWords (listElemCount (sg.mem r)))).1 = true ∧
      0 < listElemCount (sg.mem r) ∧
      byteAt sg (8 * (wpTarget r (sg.mem r)).toNat + (listElemCount (sg.mem r) - 1)) = 0) →
      ∃ rl', readTextPointer sg rl (some r) = (TRes.dflt, rl') ∧ rl.errs < rl'.errs) := by
  constructor
  · rintro ⟨hk, hs, hb, hn, hz⟩
    have hn' : ¬ listElemCount (sg.mem r) = 0 := by omega
    simp [readTextPointer, hnn, followFars_direct sg rl r hnf, hk, hs, hb, hn', hz]
  · intro hcond
    by_cases hk : wpKind (sg.mem r) = 1
    · by_cases hs : listElemSizeCode (sg.mem r) = 2
      · by_cases hb : (boundsCheckW sg rl (wpTarget r (sg.mem r))
            (wpTarget r (sg.mem r) + roundBytesUpToWords (listElemCount (sg.mem r)))).1 = true
        · by_cases hn : 0 < listElemCount (sg.mem r)
          · by_cases hz : byteAt sg (8 * (wpTarget r (sg.mem r)).toNat +
                (listElemCount (sg.mem r) - 1)) = 0
            · exact absurd ⟨hk, hs, hb, hn, hz⟩ hcond
            · refine ⟨reportErr (boundsCheckW sg rl (wpTarget r (sg.mem r))
                (wpTarget r (sg.mem r) + roundBytesUpToWords (listElemCount (sg.mem r)))).2,
                ?_, ?_⟩
              · have hn' : ¬ listElemCount (sg.mem r) = 0 := by omega
                simp [readTextPointer, hnn, followFars_direct sg rl r hnf, hk, hs, hb, hn', hz]
              · have := boundsCheckW_true_errs sg rl _ _ hb
                simp only [reportErr]
                omega
          · refine ⟨reportErr (boundsCheckW sg rl (wpTarget r (sg.mem r))
              (wpTarget r (sg.mem r) + roundBytesUpToWords (listElemCount (sg.mem r)))).2,
              ?_, ?_⟩
            · have hn' : listElemCount (sg.mem r) = 0 := by omega
              simp [readTextPointer, hnn, followFars_direct sg rl r hnf, hk, hs, hb, hn']
            · have := boundsCheckW_true_errs sg rl _ _ hb
              simp only [reportErr]
              omega
        · refine ⟨reportErr (boundsCheckW sg rl (wpTarget r (sg.mem r))
            (wpTarget r (sg.mem r) + roundBytesUpToWords (listElemCount (sg.mem r)))).2,
            ?_, ?_⟩
          · have hb' : (boundsCheckW sg rl (wpTarget r (sg.mem r))
                (wpTarget r (sg.mem r) + roundBytesUpToWords (listElemCount (sg.mem r)))).1
                = false := by
              simpa using hb
            simp [readTextPointer, hnn, followFars_direct sg rl r hnf, hk, hs, hb']
          · have := boundsCheckW_errs sg rl (wpTarget r (sg.mem r))
              (wpTarget r (sg.mem r) + roundBytesUpToWords (listElemCount (sg.mem r)))
            simp only [reportErr]
            omega
      · refine ⟨reportErr rl, ?_, ?_⟩
        · simp [readTextPointer, hnn, followFars_direct sg rl r hnf, hk, hs]
        · simp [reportErr]
    · refine ⟨reportErr rl, ?_, ?_⟩
      · simp [readTextPointer, hnn, followFars_direct sg rl r hnf, hk]
      · simp [reportErr]

end CapnProto

namespace CapnProto

/-- Witness for C8: a 2-word segment whose root word is a LIST-of-BYTE
pointer to the next word holding "hello\x00" (count 6 includes the NUL);
the view has length 5 and one word of limit is consumed. -/
theorem read_text_c8_witness :
    readTextPointer
      ⟨fun i => if i = 0 then 1 + 2 ^ 32 * 50
        else if i = 1 then 104 + 101 * 256 + 108 * 256 ^ 2 + 108 * 256 ^ 3 + 111 * 256 ^ 4
        else 0, 2⟩
      ⟨10, 0⟩ (some 0) = (TRes.view 8 5, ⟨9, 0⟩) := by
  have h := (read_text_c8
      ⟨fun i => if i = 0 then 1 + 2 ^ 32 * 50
        else if i = 1 then 104 + 101 * 256 + 108 * 256 ^ 2 + 108 * 256 ^ 3 + 111 * 256 ^ 4
        else 0, 2⟩
      ⟨10, 0⟩ 0 (by decide) (by decide)).1
    ⟨by decide, by decide, by decide, by decide, by decide⟩
  rw [h]
  decide

end CapnProto

namespace CapnProto

/-- Claim C6: `readListPointer` on an inline-composite list pointer (for a
non-null, non-far ref with a positive nesting limit): the whole area
(tag word plus declared word count) is bounds-checked; the tag must have
kind STRUCT and `elementCount * structWordSize ≤ declaredWordCount`, with an
error recorded and the default returned on violation; an expected element
size of BIT is rejected; BYTE/TWO/FOUR/EIGHT_BYTES require a data section of
at least one word; POINTER advances the element pointer by the tag's data
size (into the pointer section) and requires at least one pointer. -/
theorem read_list_c6 (sg : RSeg) (rl : RL) (r expected nesting : Nat)
    (hnn : ¬ wpNull (sg.mem r)) (hnf : wpKind (sg.mem r) ≠ 2)
    (hk : wpKind (sg.mem r) = 1) (hic : listElemSizeCode (sg.mem r) = 7)
    (hnest : nesting ≠ 0) :
    ((boundsCheckW sg rl (wpTarget r (sg.mem r))
        (wpTarget r (sg.mem r) + 1 + listElemCount (sg.mem r))).1 = false →
      ∃ rl', readListPointer sg rl (some r) expected nesting = (LRes.dflt, rl') ∧
        rl.errs < rl'.errs) ∧
    ((boundsCheckW sg rl (wpTarget r (sg.mem r))
        (wpTarget r (sg.mem r) + 1 + listElemCount (sg.mem r))).1 = true →
      wpKind (sg.mem (wpTarget r (sg.mem r)).toNat) ≠ 0 →
      readListPointer sg rl (some r) expected nesting =
        (LRes.dflt, reportErr (boundsCheckW sg rl (wpTarget r (sg.mem r))
          (wpTarget r (sg.mem r) + 1 + listElemCount (sg.mem r))).2)) ∧
    ((boundsCheckW sg rl (wpTarget r (sg.mem r))
        (wpTarget r (sg.mem r) + 1 + listElemCount (sg.mem r))).1 = true →
      wpKind (sg.mem (wpTarget r (sg.mem r)).toNat) = 0 →
      listElemCount (sg.mem r) <
        icElementCount (sg.mem (wpTarget r (sg.mem r)).toNat) *
          (structDataSize (sg.mem (wpTarget r (sg.mem r)).toNat) +
           structPtrCount (sg.mem (wpTarget r (sg.mem r)).toNat)) →
      readListPointer sg rl (some r) expected nesting =
        (LRes.dflt, reportErr (boundsCheckW sg rl (wpTarget r (sg.mem r))
          (wpTarget r (sg.mem r) + 1 + listElemCount (sg.mem r))).2)) ∧
    ((boundsCheckW sg rl (wpTarget r (sg.mem r))
        (wpTarget r (sg.mem r) + 1 + listElemCount (sg.mem r))).1 = true →
      wpKind (sg.mem (wpTarget r (sg.mem r)).toNat) = 0 →
      icElementCount (sg.mem (wpTarget r (sg.mem r)).toNat) *
        (structDataSize (sg.mem (wpTarget r (sg.mem r)).toNat) +
         structPtrCount (sg.mem (wpTarget r (sg.mem r)).toNat)) ≤
        listElemCount (sg.mem r) →
      (expected = 1 →
        readListPointer sg rl (some r) expected nesting =
          (LRes.dflt, reportErr (boundsCheckW sg rl (wpTarget r (sg.mem r))
            (wpTarget r (sg.mem r) + 1 + listElemCount (sg.mem r))).2)) ∧
      ((expected = 2 ∨ expected = 3 ∨ expected = 4 ∨ expected = 5) →
        (structDataSize (sg.mem (wpTarget r (sg.mem r)).toNat) = 0 →
          readListPointer sg rl (some r) expected nesting =
            (LRes.dflt, reportErr (boundsCheckW sg rl (wpTarget r (sg.mem r))
              (wpTarget r (sg.mem r) + 1 + listElemCount (sg.mem r))).2)) ∧
        (0 < structDataSize (sg.mem (wpTarget r (sg.mem r)).toNat) →
          readListPointer sg rl (some r) expected nesting =
            (LRes.ok ⟨(wpTarget r (sg.mem r) + 1).toNat,
              icElementCount (sg.mem (wpTarget r (sg.mem r)).toNat),
              (structDataSize (sg.mem (wpTarget r (sg.mem r)).toNat) +
               structPtrCount (sg.mem (wpTarget r (sg.mem r)).toNat)) * 64,
              structDataSize (sg.mem (wpTarget r (sg.mem r)).toNat) * 64,
              structPtrCount (sg.mem (wpTarget r (sg.mem r)).toNat), nesting - 1⟩,
             (boundsCheckW sg rl (wpTarget r (sg.mem r))
               (wpTarget r (sg.mem r) + 1 + listElemCount (sg.mem r))).2))) ∧
      (expected = 6 →
        (structPtrCount (sg.mem (wpTarget r (sg.mem r)).toNat) = 0 →
          readListPointer sg rl (some r) expected nesting =
            (LRes.dflt, reportErr (boundsCheckW sg rl (wpTarget r (sg.mem r))
              (wpTarget r (sg.mem r) + 1 + listElemCount (sg.mem r))).2)) ∧
        (0 < structPtrCount (sg.mem (wpTarget r (sg.mem r)).toNat) →
          readListPointer sg rl (some r) expected nesting =
            (LRes.ok ⟨(wpTarget r (sg.mem r) + 1 +
                structDataSize (sg.mem (wpTarget r (sg.mem r)).toNat)).toNat,
              icElementCount (sg.mem (wpTarget r (sg.mem r)).toNat),
              (structDataSize (sg.mem (wpTarget r (sg.mem r)).toNat) +
               structPtrCount (sg.mem (wpTarget r (sg.mem r)).toNat)) * 64,
              structDataSize (sg.mem (wpTarget r (sg.mem r)).toNat) * 64,
              structPtrCount (sg.mem (wpTarget r (sg.mem r)).toNat), nesting - 1⟩,
             (boundsCheckW sg rl (wpTarget r (sg.mem r))
               (wpTarget r (sg.mem r) + 1 + listElemCount (sg.mem r))).2)))) := by
  refine ⟨?_, ?_, ?_, ?_⟩
  · intro hb
    refine ⟨reportErr (boundsCheckW sg rl (wpTarget r (sg.mem r))
      (wpTarget r (sg.mem r) + 1 + listElemCount (sg.mem r))).2, ?_, ?_⟩
    · simp only [readListPointer, if_neg hnn, if_neg hnest, followFars_direct sg rl r hnf]
      simp [hk, hic, show wpTarget r (sg.mem r) + 1 - 1 = wpTarget r (sg.mem r) by ring,
        show wpTarget r (sg.mem r) + 1 + (listElemCount (sg.mem r) : Int) =
          wpTarget r (sg.mem r) + 1 + listElemCount (sg.mem r) by ring, hb]
    · have := boundsCheckW_errs sg rl (wpTarget r (sg.mem r))
        (wpTarget r (sg.mem r) + 1 + listElemCount (sg.mem r))
      simp only [reportErr]
      omega
  · intro hb htag
    simp only [readListPointer, if_neg hnn, if_neg hnest, followFars_direct sg rl r hnf]
    simp [hk, hic, show wpTarget r (sg.mem r) + 1 - 1 = wpTarget r (sg.mem r) by ring,
      show wpTarget r (sg.mem r) + 1 + (listElemCount (sg.mem r) : Int) =
        wpTarget r (sg.mem r) + 1 + listElemCount (sg.mem r) by ring, hb, htag]
  · intro hb htag hover
    simp only [readListPointer, if_neg hnn, if_neg hnest, followFars_direct sg rl r hnf]
    simp [hk, hic, show wpTarget r (sg.mem r) + 1 - 1 = wpTarget r (sg.mem r) by ring,
      show wpTarget r (sg.mem r) + 1 + (listElemCount (sg.mem r) : Int) =
        wpTarget r (sg.mem r) + 1 + listElemCount (sg.mem r) by ring, hb, htag]
    omega
  · intro hb htag hfit
    have hfit' : ¬ (listElemCount (sg.mem r) <
        icElementCount (sg.mem (wpTarget r (sg.mem r)).toNat) *
          (structDataSize (sg.mem (wpTarget r (sg.mem r)).toNat) +
           structPtrCount (sg.mem (wpTarget r (sg.mem r)).toNat))) := by omega
    refine ⟨?_, ?_, ?_⟩
    · intro he
      subst he
      simp only [readListPointer, if_neg hnn, if_neg hnest, followFars_direct sg rl r hnf]
      simp [hk, hic, show wpTarget r (sg.mem r) + 1 - 1 = wpTarget r (sg.mem r) by ring,
        show wpTarget r (sg.mem r) + 1 + (listElemCount (sg.mem r) : Int) =
          wpTarget r (sg.mem r) + 1 + listElemCount (sg.mem r) by ring, hb, htag, hfit']
    · intro he
      constructor
      · intro hds
        rcases he with rfl | rfl | rfl | rfl <;>
          · simp only [readListPointer, if_neg hnn, if_neg hnest, followFars_direct sg rl r hnf]
            simp [hk, hic, show wpTarget r (sg.mem r) + 1 - 1 = wpTarget r (sg.mem r) by ring,
              show wpTarget r (sg.mem r) + 1 + (listElemCount (sg.mem r) : Int) =
                wpTarget r (sg.mem r) + 1 + listElemCount (sg.mem r) by ring, hb, htag,
              hfit', hds]
      · intro hds
        have hds' : ¬ structDataSize (sg.mem (wpTarget r (sg.mem r)).toNat) = 0 := by omega
        rcases he with rfl | rfl | rfl | rfl <;>
          · simp only [readListPointer, if_neg hnn, if_neg hnest, followFars_direct sg rl r hnf]
            simp [hk, hic, show wpTarget r (sg.mem r) + 1 - 1 = wpTarget r (sg.mem r) by ring,
              show wpTarget r (sg.mem r) + 1 + (listElemCount (sg.mem r) : Int) =
                wpTarget r (sg.mem r) + 1 + listElemCount (sg.mem r) by ring, hb, htag,
              hfit', hds']
    · intro he
      subst he
      constructor
      · intro hpc
        simp only [readListPointer, if_neg hnn, if_neg hnest, followFars_direct sg rl r hnf]
        simp [hk, hic, show wpTarget r (sg.mem r) + 1 - 1 = wpTarget r (sg.mem r) by ring,
          show wpTarget r (sg.mem r) + 1 + (listElemCount (sg.mem r) : Int) =
            wpTarget r (sg.mem r) + 1 + listElemCount (sg.mem r) by ring, hb, htag,
          hfit', hpc]
      · intro hpc
        have hpc' : ¬ structPtrCount (sg.mem (wpTarget r (sg.mem r)).toNat) = 0 := by omega
        simp only [readListPointer, if_neg hnn, if_neg hnest, followFars_direct sg rl r hnf]
        simp [hk, hic, show wpTarget r (sg.mem r) + 1 - 1 = wpTarget r (sg.mem r) by ring,
          show wpTarget r (sg.mem r) + 1 + (listElemCount (sg.mem r) : Int) =
            wpTarget r (sg.mem r) + 1 + listElemCount (sg.mem r) by ring, hb, htag,
          hfit', hpc']

end CapnProto

namespace CapnProto

/-- Witness for C6: a 4-word segment holding an inline-composite list of two
one-data-word structs. Expecting TWO_BYTES succeeds (the tag has one data
word); expecting BIT is rejected with a recorded error. -/
theorem read_list_c6_witness :
    readListPointer
      ⟨fun i => if i = 0 then 1 + 2 ^ 32 * 23 else if i = 1 then 8 + 2 ^ 32
        else if i = 2 then 170 else if i = 3 then 187 else 0, 4⟩
      ⟨10, 0⟩ (some 0) 3 5 = (LRes.ok ⟨2, 2, 64, 64, 0, 4⟩, ⟨7, 0⟩) ∧
    readListPointer
      ⟨fun i => if i = 0 then 1 + 2 ^ 32 * 23 else if i = 1 then 8 + 2 ^ 32
        else if i = 2 then 170 else if i = 3 then 187 else 0, 4⟩
      ⟨10, 0⟩ (some 0) 1 5 = (LRes.dflt, ⟨7, 1⟩) := by
  have hok := ((read_list_c6
      ⟨fun i => if i = 0 then 1 + 2 ^ 32 * 23 else if i = 1 then 8 + 2 ^ 32
        else if i = 2 then 170 else if i = 3 then 187 else 0, 4⟩
      ⟨10, 0⟩ 0 3 5 (by decide) (by decide) (by decide) (by decide)
      (by decide)).2.2.2 (by decide) (by decide) (by decide)).2.1
    (Or.inr (Or.inl rfl)) |>.2 (by decide)
  have hbit := ((read_list_c6
      ⟨fun i => if i = 0 then 1 + 2 ^ 32 * 23 else if i = 1 then 8 + 2 ^ 32
        else if i = 2 then 170 else if i = 3 then 187 else 0, 4⟩
      ⟨10, 0⟩ 0 1 5 (by decide) (by decide) (by decide) (by decide)
      (by decide)).2.2.2 (by decide) (by decide) (by decide)).1 rfl
  constructor
  · rw [hok]; decide
  · rw [hbit]; decide

end CapnProto

namespace CapnProto

/-! ## Builder-side layout engine: struct write & upgrade (layout.c++)

Single-segment model of `WireHelpers::getWritableStructPointer` with
`transferPointer` and `zeroPointerAndFars`. All word writes go through
`writeW`; `memcpy`/`memset` and the pointer-transfer loop are modelled as
word-by-word loops over the same memory, exactly as the source executes
them. -/

/-- `WirePointer::setKindAndTarget(kind, target)` on the slot at `refIdx`
(the upper 32 bits are left as they were). -/
def setKindAndTarget (s : BSeg) (refIdx kind target : Nat) : BSeg :=
  writeW s refIdx
    (encodeOAK ((target : Int) - refIdx - 1) kind + 2 ^ 32 * u32hi (s.mem refIdx))

/-- `structRef.set(dataSize, ptrCount)` on the slot at `refIdx` (the low 32
bits are left as they were). -/
def setStructRef (s : BSeg) (refIdx dataSize ptrCount : Nat) : BSeg :=
  writeW s refIdx (u32lo (s.mem refIdx) + 2 ^ 32 * (dataSize + 2 ^ 16 * ptrCount))

/-- `WireHelpers::transferPointer` for source and destination in the same
segment, as a pure word transformation: null stays null, far pointers are
byte-copied (position independent), and a direct pointer is re-targeted at
the same object with the upper 32 bits copied. -/
def transferPtrWord (dstIdx srcIdx v : Nat) : Nat :=
  if wpNull v then 0
  else if wpKind v = 2 then v
  else encodeOAK (wpTarget srcIdx v - dstIdx - 1) (wpKind v) + 2 ^ 32 * u32hi v

/-- The pointer-section copy loop of `getWritableStructPointer`:
`transferPointer(segment, newPointerSection + i, oldSegment, oldPointerSection + i)`
for `i < n`. -/
def transferLoop (s : BSeg) (dstBase srcBase : Nat) : Nat → BSeg
  | 0 => s
  | Nat.succ n =>
    let s0 := transferLoop s dstBase srcBase n
    writeW s0 (dstBase + n) (transferPtrWord (dstBase + n) (srcBase + n) (s0.mem (srcBase + n)))

/-- `memcpy(dst, src, n * sizeof(word))` within one segment. -/
def memcpySeg (s : BSeg) (dst src : Nat) : Nat → BSeg
  | 0 => s
  | Nat.succ n =>
    let s0 := memcpySeg s dst src n
    writeW s0 (dst + n) (s0.mem (src + n))

/-- `WireHelpers::zeroPointerAndFars`: zero the landing pad of a far slot,
then the slot word itself (the object body is left alone). -/
def zeroPointerAndFars (s : BSeg) (refIdx : Nat) : BSeg :=
  let v := s.mem refIdx
  let s1 := if wpKind v = 2 then memsetSeg s (farPosition v) (if farIsDouble v then 2 else 1)
            else s
  writeW s1 refIdx 0

/-- `WireHelpers::getWritableStructPointer(ref, segment, size, default)` for
a non-null, non-far slot naming an existing object, in a single-segment
arena with room in the segment (`none` marks the paths outside this model:
null slot/default copy, far slot, non-struct slot, and spilling into a new
segment). Returns `((objectWord, dataWords, ptrCount), segment)` — the
`StructBuilder`'s location and sizes plus the updated segment. -/
def getWritableStructPointer (s : BSeg) (refIdx sizeData sizePtrs : Nat) :
    Option ((Nat × Nat × Nat) × BSeg) :=
  let v := s.mem refIdx
  if wpNull v then none
  else if wpKind v = 2 then none
  else if wpKind v ≠ 0 then none
  else
    let tgt := wpTarget refIdx v
    if tgt < 0 then none
    else
      let oldPtr := tgt.toNat
      let oldD := structDataSize v
      let oldR := structPtrCount v
      if oldD < sizeData ∨ oldR < sizePtrs then
        let newD := max oldD sizeData
        let newR := max oldR sizePtrs
        let s1 := zeroPointerAndFars s refIdx
        match segAllocate s1 (newD + newR) with
        | none => none
        | some (ptr, s2) =>
          let s3 := setStructRef (setKindAndTarget s2 refIdx 0 ptr) refIdx newD newR
          let s4 := memcpySeg s3 ptr oldPtr oldD
          let s5 := transferLoop s4 (ptr + newD) (oldPtr + oldD) oldR
          let s6 := memsetSeg s5 oldPtr (oldD + oldR)
          some ((ptr, newD, newR), s6)
      else
        some ((oldPtr, oldD, oldR), s)

/-! ### Arithmetic facts about the pointer encoding -/

theorem encodeOAK_lt (d : Int) (k : Nat) : encodeOAK d k < 2 ^ 32 := by
  unfold encodeOAK
  omega

theorem u32lo_encode (d : Int) (k u : Nat) :
    u32lo (encodeOAK d k + 2 ^ 32 * u) = encodeOAK d k := by
  have := encodeOAK_lt d k
  unfold u32lo
  omega

theorem u32hi_encode (d : Int) (k u : Nat) (hu : u < 2 ^ 32) :
    u32hi (encodeOAK d k + 2 ^ 32 * u) = u := by
  have := encodeOAK_lt d k
  unfold u32hi
  omega

theorem wpKind_encode (d : Int) (k u : Nat) (hk : k < 4) :
    wpKind (encodeOAK d k + 2 ^ 32 * u) = k := by
  have := encodeOAK_lt d k
  unfold wpKind u32lo encodeOAK
  omega

theorem wpOffset_encode (d : Int) (k u : Nat) (hk : k < 4)
    (hd1 : -(2 ^ 29) ≤ d) (hd2 : d < 2 ^ 29) :
    wpOffset (encodeOAK d k + 2 ^ 32 * u) = d := by
  unfold wpOffset
  rw [u32lo_encode]
  unfold toInt32 encodeOAK
  split_ifs with h
  · omega
  · omega

theorem wpTarget_encode (i p : Nat) (k u : Nat) (hk : k < 4)
    (hi : (i : Int) < 2 ^ 28) (hp : (p : Nat) < 2 ^ 28) :
    wpTarget i (encodeOAK ((p : Int) - i - 1) k + 2 ^ 32 * u) = p := by
  unfold wpTarget
  rw [wpOffset_encode _ _ _ hk (by omega) (by omega)]
  omega

end CapnProto

namespace CapnProto

theorem memcpySeg_size (s : BSeg) (dst src n : Nat) : (memcpySeg s dst src n).size = s.size := by
  induction n with
  | zero => rfl
  | succ n ih => simp [memcpySeg, writeW, ih]

theorem memcpySeg_pos (s : BSeg) (dst src n : Nat) : (memcpySeg s dst src n).pos = s.pos := by
  induction n with
  | zero => rfl
  | succ n ih => simp [memcpySeg, writeW, ih]

theorem transferLoop_size (s : BSeg) (db sb n : Nat) : (transferLoop s db sb n).size = s.size := by
  induction n with
  | zero => rfl
  | succ n ih => simp [transferLoop, writeW, ih]

theorem transferLoop_pos (s : BSeg) (db sb n : Nat) : (transferLoop s db sb n).pos = s.pos := by
  induction n with
  | zero => rfl
  | succ n ih => simp [transferLoop, writeW, ih]

theorem memcpySeg_mem (s : BSeg) (dst src n : Nat) (hd : src + n ≤ dst) :
    ∀ a, (memcpySeg s dst src n).mem a =
      if dst ≤ a ∧ a < dst + n then s.mem (src + (a - dst)) else s.mem a := by
  induction n with
  | zero =>
    intro a
    rw [memcpySeg, if_neg (by omega)]
  | succ n ih =>
    intro a
    have ih' := ih (by omega)
    simp only [memcpySeg, writeW, Function.update_apply]
    by_cases ha : a = dst + n
    · subst ha
      rw [if_pos rfl, if_pos (by omega)]
      rw [ih' (src + n), if_neg (by omega)]
      have : src + (dst + n - dst) = src + n := by omega
      rw [this]
    · rw [if_neg ha, ih' a]
      by_cases hin : dst ≤ a ∧ a < dst + n
      · rw [if_pos hin, if_pos (by omega)]
      · rw [if_neg hin, if_neg (by omega)]

theorem transferLoop_mem (s : BSeg) (db sb n : Nat) (hd : sb + n ≤ db) :
    ∀ a, (transferLoop s db sb n).mem a =
      if db ≤ a ∧ a < db + n then
        transferPtrWord a (sb + (a - db)) (s.mem (sb + (a - db)))
      else s.mem a := by
  induction n with
  | zero =>
    intro a
    rw [transferLoop, if_neg (by omega)]
  | succ n ih =>
    intro a
    have ih' := ih (by omega)
    simp only [transferLoop, writeW, Function.update_apply]
    by_cases ha : a = db + n
    · subst ha
      rw [if_pos rfl, if_pos (by omega)]
      rw [ih' (sb + n), if_neg (by omega)]
      have h1 : sb + (db + n - db) = sb + n := by omega
      rw [h1]
    · rw [if_neg ha, ih' a]
      by_cases hin : db ≤ a ∧ a < db + n
      · rw [if_pos hin, if_pos (by omega)]
      · rw [if_neg hin, if_neg (by omega)]

end CapnProto

namespace CapnProto

theorem wpKind_lt4 (w : Nat) : wpKind w < 4 := by
  unfold wpKind u32lo; omega

theorem u32hi_lt (w : Nat) : u32hi w < 2 ^ 32 := by
  unfold u32hi; omega

theorem structDataSize_lt (w : Nat) : structDataSize w < 2 ^ 16 := by
  unfold structDataSize; omega

theorem structPtrCount_lt (w : Nat) : structPtrCount w < 2 ^ 16 := by
  unfold structPtrCount; omega

theorem u32lo_of_lt {n : Nat} (h : n < 2 ^ 32) : u32lo n = n := by
  unfold u32lo; omega

theorem wpTarget_encodeT (i : Nat) (T : Int) (k u : Nat) (hk : k < 4)
    (hd1 : -(2 ^ 29) ≤ T - i - 1) (hd2 : T - i - 1 < 2 ^ 29) :
    wpTarget i (encodeOAK (T - i - 1) k + 2 ^ 32 * u) = T := by
  unfold wpTarget
  rw [wpOffset_encode _ _ _ hk hd1 hd2]
  ring

theorem zeroPointerAndFars_pos (s : BSeg) (refIdx : Nat) (h : wpKind (s.mem refIdx) ≠ 2) :
    (zeroPointerAndFars s refIdx).pos = s.pos := by
  simp [zeroPointerAndFars, h, writeW]

theorem zeroPointerAndFars_size (s : BSeg) (refIdx : Nat) (h : wpKind (s.mem refIdx) ≠ 2) :
    (zeroPointerAndFars s refIdx).size = s.size := by
  simp [zeroPointerAndFars, h, writeW]

theorem zeroPointerAndFars_mem (s : BSeg) (refIdx : Nat) (h : wpKind (s.mem refIdx) ≠ 2)
    (a : Nat) :
    (zeroPointerAndFars s refIdx).mem a = if a = refIdx then 0 else s.mem a := by
  simp [zeroPointerAndFars, h, writeW, Function.update_apply]

end CapnProto

namespace CapnProto

/-- Claim C2: `getWritableStructPointer` on a non-null slot naming an existing
struct of size `(oldD, oldR)` with expected size `(sizeData, sizePtrs)`: when
`oldD ≥ sizeData ∧ oldR ≥ sizePtrs` the existing object is returned in place
with the segment untouched; otherwise a new object of size
`(max oldD sizeData, max oldR sizePtrs)` is allocated at the end of the
segment, the old data section is copied word-for-word, each of the `oldR` old
pointers is transferred (null stays null, far words copy verbatim, direct
pointers keep their kind, size half and absolute target), the old object's
words are zeroed, and the slot is rewritten as a STRUCT pointer to the new
object with the new sizes — so every data bit and pointer that fit in the old
layout reads the same value through the returned builder as before. Stated
for a direct (non-far) slot and an in-segment allocation, the single-segment
fragment modelled here. -/
theorem writable_struct_c2
    (s : BSeg) (refIdx sizeData sizePtrs oldPtr oldD oldR : Nat)
    (hop : oldPtr = (wpTarget refIdx (s.mem refIdx)).toNat)
    (hod : oldD = structDataSize (s.mem refIdx))
    (hor : oldR = structPtrCount (s.mem refIdx))
    (hinv : s.pos ≤ s.size) (href : refIdx < s.pos)
    (hnn : ¬ wpNull (s.mem refIdx)) (hknd : wpKind (s.mem refIdx) = 0)
    (htgt : 0 ≤ wpTarget refIdx (s.mem refIdx))
    (hobj : oldPtr + oldD + oldR ≤ s.pos)
    (hdisj : refIdx < oldPtr ∨ oldPtr + oldD + oldR ≤ refIdx)
    (hspace : max oldD sizeData + max oldR sizePtrs ≤ s.size - s.pos)
    (hsize : s.size ≤ 2 ^ 20)
    (hsd : sizeData < 2 ^ 16) (hsp : sizePtrs < 2 ^ 16)
    (hptrs : ∀ i, i < oldR → ¬ wpNull (s.mem (oldPtr + oldD + i)) →
      wpKind (s.mem (oldPtr + oldD + i)) ≠ 2 →
      0 ≤ wpTarget (oldPtr + oldD + i) (s.mem (oldPtr + oldD + i)) ∧
        wpTarget (oldPtr + oldD + i) (s.mem (oldPtr + oldD + i)) < (s.size : Int)) :
    (sizeData ≤ oldD ∧ sizePtrs ≤ oldR →
      getWritableStructPointer s refIdx sizeData sizePtrs = some ((oldPtr, oldD, oldR), s)) ∧
    (oldD < sizeData ∨ oldR < sizePtrs → ∃ s',
      getWritableStructPointer s refIdx sizeData sizePtrs =
        some ((s.pos, max oldD sizeData, max oldR sizePtrs), s') ∧
      s'.pos = s.pos + (max oldD sizeData + max oldR sizePtrs) ∧
      s'.size = s.size ∧
      wpKind (s'.mem refIdx) = 0 ∧
      wpTarget refIdx (s'.mem refIdx) = (s.pos : Int) ∧
      structDataSize (s'.mem refIdx) = max oldD sizeData ∧
      structPtrCount (s'.mem refIdx) = max oldR sizePtrs ∧
      (∀ w, w < oldD → s'.mem (s.pos + w) = s.mem (oldPtr + w)) ∧
      (∀ i, i < oldR →
        (wpNull (s.mem (oldPtr + oldD + i)) →
          s'.mem (s.pos + max oldD sizeData + i) = 0) ∧
        (wpKind (s.mem (oldPtr + oldD + i)) = 2 →
          s'.mem (s.pos + max oldD sizeData + i) = s.mem (oldPtr + oldD + i)) ∧
        (¬ wpNull (s.mem (oldPtr + oldD + i)) → wpKind (s.mem (oldPtr + oldD + i)) ≠ 2 →
          wpKind (s'.mem (s.pos + max oldD sizeData + i)) =
            wpKind (s.mem (oldPtr + oldD + i)) ∧
          u32hi (s'.mem (s.pos + max oldD sizeData + i)) =
            u32hi (s.mem (oldPtr + oldD + i)) ∧
          wpTarget (s.pos + max oldD sizeData + i) (s'.mem (s.pos + max oldD sizeData + i)) =
            wpTarget (oldPtr + oldD + i) (s.mem (oldPtr + oldD + i)))) ∧
      (∀ w, w < oldD + oldR → s'.mem (oldPtr + w) = 0)) := by
  have hk2 : ¬ wpKind (s.mem refIdx) = 2 := by omega
  have hkne : ¬ wpKind (s.mem refIdx) ≠ 0 := by simp [hknd]
  have hneg : ¬ (wpTarget refIdx (s.mem refIdx) < 0) := by omega
  constructor
  · rintro ⟨h1, h2⟩
    have hcond : ¬ (structDataSize (s.mem refIdx) < sizeData ∨
        structPtrCount (s.mem refIdx) < sizePtrs) := by omega
    simp only [getWritableStructPointer]
    rw [if_neg hnn, if_neg hk2, if_neg hkne, if_neg hneg, if_neg hcond]
    rw [hop, hod, hor]
  · intro hup
    have hcond : structDataSize (s.mem refIdx) < sizeData ∨
        structPtrCount (s.mem refIdx) < sizePtrs := by omega
    -- names for the run
    have hs1pos := zeroPointerAndFars_pos s refIdx hk2
    have hs1size := zeroPointerAndFars_size s refIdx hk2
    have hs1mem := zeroPointerAndFars_mem s refIdx hk2
    have halloc : segAllocate (zeroPointerAndFars s refIdx)
        (max (structDataSize (s.mem refIdx)) sizeData +
         max (structPtrCount (s.mem refIdx)) sizePtrs) =
        some (s.pos, { zeroPointerAndFars s refIdx with
          pos := s.pos + (max (structDataSize (s.mem refIdx)) sizeData +
            max (structPtrCount (s.mem refIdx)) sizePtrs) }) := by
      rw [segAllocate, if_neg (by rw [hs1pos, hs1size]; omega)]
      rw [hs1pos]
    have hrun : getWritableStructPointer s refIdx sizeData sizePtrs =
        some ((s.pos, max (structDataSize (s.mem refIdx)) sizeData,
          max (structPtrCount (s.mem refIdx)) sizePtrs),
          memsetSeg
            (transferLoop
              (memcpySeg
                (setStructRef
                  (setKindAndTarget
                    { zeroPointerAndFars s refIdx with
                      pos := s.pos + (max (structDataSize (s.mem refIdx)) sizeData +
                        max (structPtrCount (s.mem refIdx)) sizePtrs) }
                    refIdx 0 s.pos)
                  refIdx (max (structDataSize (s.mem refIdx)) sizeData)
                  (max (structPtrCount (s.mem refIdx)) sizePtrs))
                s.pos (wpTarget refIdx (s.mem refIdx)).toNat
                (structDataSize (s.mem refIdx)))
              (s.pos + max (structDataSize (s.mem refIdx)) sizeData)
              ((wpTarget refIdx (s.mem refIdx)).toNat + structDataSize (s.mem refIdx))
              (structPtrCount (s.mem refIdx)))
            (wpTarget refIdx (s.mem refIdx)).toNat
            (structDataSize (s.mem refIdx) + structPtrCount (s.mem refIdx))) := by
      simp only [getWritableStructPointer]
      rw [if_neg hnn, if_neg hk2, if_neg hkne, if_neg hneg, if_pos hcond, halloc]
    rw [← hop, ← hod, ← hor] at hrun
    set s3e := setStructRef (setKindAndTarget
      { zeroPointerAndFars s refIdx with
        pos := s.pos + (max oldD sizeData + max oldR sizePtrs) }
      refIdx 0 s.pos) refIdx (max oldD sizeData) (max oldR sizePtrs) with hs3e
    set s4e := memcpySeg s3e s.pos oldPtr oldD with hs4e
    set s5e := transferLoop s4e (s.pos + max oldD sizeData) (oldPtr + oldD) oldR with hs5e
    set s6e := memsetSeg s5e oldPtr (oldD + oldR) with hs6e
    -- the slot word written by setKindAndTarget + structRef.set
    have hmem3 : ∀ a, s3e.mem a =
        if a = refIdx then
          encodeOAK ((s.pos : Int) - refIdx - 1) 0 +
            2 ^ 32 * (max oldD sizeData + 2 ^ 16 * max oldR sizePtrs)
        else s.mem a := by
      intro a
      by_cases ha : a = refIdx
      · rw [hs3e, if_pos ha]
        simp only [setStructRef, setKindAndTarget, writeW, Function.update_apply, if_pos ha,
          Function.update_same]
        rw [show ({ zeroPointerAndFars s refIdx with
            pos := s.pos + (max oldD sizeData + max oldR sizePtrs) } : BSeg).mem =
            (zeroPointerAndFars s refIdx).mem from rfl]
        rw [hs1mem refIdx, if_pos rfl]
        simp [u32lo_encode, show u32hi 0 = 0 from rfl, u32lo_of_lt (encodeOAK_lt _ _)]
      · rw [hs3e]
        simp only [setStructRef, setKindAndTarget, writeW, Function.update_apply, if_neg ha]
        rw [show ({ zeroPointerAndFars s refIdx with
            pos := s.pos + (max oldD sizeData + max oldR sizePtrs) } : BSeg).mem =
            (zeroPointerAndFars s refIdx).mem from rfl]
        rw [hs1mem a, if_neg ha]
    have hm3pos : s3e.pos = s.pos + (max oldD sizeData + max oldR sizePtrs) := by
      rw [hs3e]; simp [setStructRef, setKindAndTarget, writeW]
    have hm3size : s3e.size = s.size := by
      rw [hs3e]; simp [setStructRef, setKindAndTarget, writeW, hs1size]
    have hcpy : oldPtr + oldD ≤ s.pos := by omega
    have htr : (oldPtr + oldD) + oldR ≤ s.pos + max oldD sizeData := by
      have : oldD ≤ max oldD sizeData := Nat.le_max_left _ _
      omega
    -- final memory, address by address
    have hslot : s6e.mem refIdx =
        encodeOAK ((s.pos : Int) - refIdx - 1) 0 +
          2 ^ 32 * (max oldD sizeData + 2 ^ 16 * max oldR sizePtrs) := by
      rw [hs6e, memsetSeg_mem, if_neg (by omega), hs5e, transferLoop_mem _ _ _ _ htr,
        if_neg (by omega), hs4e, memcpySeg_mem _ _ _ _ hcpy, if_neg (by omega), hmem3,
        if_pos rfl]
    have hdata : ∀ w, w < oldD → s6e.mem (s.pos + w) = s.mem (oldPtr + w) := by
      intro w hw
      rw [hs6e, memsetSeg_mem, if_neg (by omega), hs5e, transferLoop_mem _ _ _ _ htr,
        if_neg (by have : oldD ≤ max oldD sizeData := Nat.le_max_left _ _; omega),
        hs4e, memcpySeg_mem _ _ _ _ hcpy, if_pos (by omega), hmem3,
        if_neg (by omega)]
      have : oldPtr + (s.pos + w - s.pos) = oldPtr + w := by omega
      rw [this]
    have hptrv : ∀ i, i < oldR → s6e.mem (s.pos + max oldD sizeData + i) =
        transferPtrWord (s.pos + max oldD sizeData + i) (oldPtr + oldD + i)
          (s.mem (oldPtr + oldD + i)) := by
      intro i hi
      rw [hs6e, memsetSeg_mem,
        if_neg (by have : oldD ≤ max oldD sizeData := Nat.le_max_left _ _; omega),
        hs5e, transferLoop_mem _ _ _ _ htr, if_pos (by omega)]
      have h1 : oldPtr + oldD + (s.pos + max oldD sizeData + i - (s.pos + max oldD sizeData))
          = oldPtr + oldD + i := by omega
      rw [h1, hs4e, memcpySeg_mem _ _ _ _ hcpy, if_neg (by omega), hmem3,
        if_neg (by omega)]
    have hzerov : ∀ w, w < oldD + oldR → s6e.mem (oldPtr + w) = 0 := by
      intro w hw
      rw [hs6e, memsetSeg_mem, if_pos (by omega)]
    have hpos6 : s6e.pos = s.pos + (max oldD sizeData + max oldR sizePtrs) := by
      rw [hs6e, memsetSeg_pos, hs5e, transferLoop_pos, hs4e, memcpySeg_pos, hm3pos]
    have hsize6 : s6e.size = s.size := by
      rw [hs6e, memsetSeg_size, hs5e, transferLoop_size, hs4e, memcpySeg_size, hm3size]
    -- the slot word facts
    have hmdlt : max oldD sizeData < 2 ^ 16 :=
      Nat.max_lt.mpr ⟨by have := structDataSize_lt (s.mem refIdx); omega, hsd⟩
    have hmrlt : max oldR sizePtrs < 2 ^ 16 :=
      Nat.max_lt.mpr ⟨by have := structPtrCount_lt (s.mem refIdx); omega, hsp⟩
    have hWu : max oldD sizeData + 2 ^ 16 * max oldR sizePtrs < 2 ^ 32 := by
      omega
    refine ⟨s6e, hrun, hpos6, hsize6, ?_, ?_, ?_, ?_, hdata, ?_, hzerov⟩
    · rw [hslot, wpKind_encode _ _ _ (by omega)]
    · rw [hslot, wpTarget_encodeT _ _ _ _ (by omega) (by omega) (by omega)]
    · rw [hslot]
      unfold structDataSize
      rw [u32hi_encode _ _ _ hWu]
      rw [Nat.add_mul_mod_self_left, Nat.mod_eq_of_lt hmdlt]
    · rw [hslot]
      unfold structPtrCount
      rw [u32hi_encode _ _ _ hWu]
      rw [Nat.add_mul_div_left _ _ (by norm_num : 0 < 2 ^ 16), Nat.div_eq_of_lt hmdlt,
        Nat.zero_add, Nat.mod_eq_of_lt hmrlt]
    · intro i hi
      refine ⟨?_, ?_, ?_⟩
      · intro hnulli
        rw [hptrv i hi, transferPtrWord, if_pos hnulli]
      · intro hfar
        rw [hptrv i hi, transferPtrWord]
        by_cases hnulli : wpNull (s.mem (oldPtr + oldD + i))
        · exfalso
          obtain ⟨hlo, hhi⟩ := hnulli
          unfold wpKind at hfar
          rw [hlo] at hfar
          simp at hfar
        · rw [if_neg hnulli, if_pos hfar]
      · intro hnulli hfari
        rw [hptrv i hi, transferPtrWord, if_neg hnulli, if_neg hfari]
        obtain ⟨htg0, htgs⟩ := hptrs i hi hnulli hfari
        have hkk := wpKind_lt4 (s.mem (oldPtr + oldD + i))
        have hdst : s.pos + max oldD sizeData + i < s.size := by
          have h1 : oldD ≤ max oldD sizeData := Nat.le_max_left _ _
          have h2 : i < max oldR sizePtrs := by
            have := Nat.le_max_left oldR sizePtrs; omega
          omega
        refine ⟨?_, ?_, ?_⟩
        · rw [wpKind_encode _ _ _ hkk]
        · rw [u32hi_encode _ _ _ (u32hi_lt _)]
        · rw [wpTarget_encodeT _ _ _ _ hkk (by omega) (by omega)]

end CapnProto

namespace CapnProto

/-- Witness for C2 on a concrete 16-word segment: the root slot names a
(1 data word, 1 pointer) struct at word 1 whose pointer field targets word 3.
Asking for (1,1) returns it in place; asking for (2,1) allocates at word 6,
copies the data word, re-targets the pointer at word 3, zeroes the old two
words, and leaves the transferred target intact. -/
theorem writable_struct_c2_witness :
    getWritableStructPointer
      ⟨fun i => if i = 0 then 2 ^ 32 * 65537 else if i = 1 then 4660
        else if i = 2 then 2 ^ 32 else if i = 3 then 153 else 0, 16, 6⟩ 0 1 1 =
      some ((1, 1, 1),
        ⟨fun i => if i = 0 then 2 ^ 32 * 65537 else if i = 1 then 4660
          else if i = 2 then 2 ^ 32 else if i = 3 then 153 else 0, 16, 6⟩) ∧
    (∃ s', getWritableStructPointer
      ⟨fun i => if i = 0 then 2 ^ 32 * 65537 else if i = 1 then 4660
        else if i = 2 then 2 ^ 32 else if i = 3 then 153 else 0, 16, 6⟩ 0 2 1 =
      some ((6, 2, 1), s') ∧
      s'.pos = 9 ∧ s'.mem 6 = 4660 ∧ s'.mem 1 = 0 ∧ s'.mem 2 = 0 ∧
      wpTarget 8 (s'.mem 8) = 3 ∧ u32hi (s'.mem 8) = 1) := by
  constructor
  · exact (writable_struct_c2
      ⟨fun i => if i = 0 then 2 ^ 32 * 65537 else if i = 1 then 4660
        else if i = 2 then 2 ^ 32 else if i = 3 then 153 else 0, 16, 6⟩ 0 1 1 1 1 1
      (by decide) (by decide) (by decide) (by decide) (by decide) (by decide) (by decide)
      (by decide) (by decide) (by decide) (by decide) (by decide) (by decide) (by decide)
      (by decide)).1 ⟨by decide, by decide⟩
  · obtain ⟨s', h1, h2, h3, hk, ht, hds, hps, hdata, hptr, hzero⟩ :=
      (writable_struct_c2
        ⟨fun i => if i = 0 then 2 ^ 32 * 65537 else if i = 1 then 4660
          else if i = 2 then 2 ^ 32 else if i = 3 then 153 else 0, 16, 6⟩ 0 2 1 1 1 1
        (by decide) (by decide) (by decide) (by decide) (by decide) (by decide) (by decide)
        (by decide) (by decide) (by decide) (by decide) (by decide) (by decide) (by decide)
        (by decide)).2 (Or.inl (by decide))
    refine ⟨s', h1, h2.trans (by decide), ?_, ?_, ?_, ?_, ?_⟩
    · exact (hdata 0 (by decide)).trans (by decide)
    · exact (hzero 0 (by decide)).trans (by decide)
    · exact (hzero 1 (by decide)).trans (by decide)
    · exact ((hptr 0 (by decide)).2.2 (by decide) (by decide)).2.2.trans (by decide)
    · exact ((hptr 0 (by decide)).2.2 (by decide) (by decide)).2.1.trans (by decide)

end CapnProto

namespace CapnProto

/-! ## Builder arena and zeroObject / allocate (layout.c++, BuilderArena)

Multi-segment builder arena: segment ids index `segs`. `zeroObject` is the
source's mutual recursion, given fuel for totality (`none` = fuel exhausted
or a fatal `CHECK`/precondition failure, paths on which the source crashes
or corrupts; builder data is well-formed by construction). -/

instance : Inhabited BSeg := ⟨⟨fun _ => 0, 0, 0⟩⟩

/-- A `BuilderArena`: its segments, by id. -/
structure BArena where
  segs : List BSeg

/-- `BuilderArena::getSegment(id)`. -/
def arenaGet (a : BArena) (i : Nat) : BSeg := a.segs.getD i default

/-- Replace segment `i`. -/
def arenaSet (a : BArena) (i : Nat) (sg : BSeg) : BArena := ⟨a.segs.set i sg⟩

/-- Read word `i` of segment `si`. -/
def aMem (a : BArena) (si i : Nat) : Nat := (arenaGet a si).mem i

/-- Write one word in segment `si`. -/
def aWrite (a : BArena) (si i v : Nat) : BArena := arenaSet a si (writeW (arenaGet a si) i v)

/-- `memset(...words at dst in segment si...)`. -/
def aMemset (a : BArena) (si dst n : Nat) : BArena :=
  arenaSet a si (memsetSeg (arenaGet a si) dst n)

/-- `BuilderArena::getSegmentWithAvailable(minimumAvailable)` (segment 0
already allocated): try segment 0, then the last extra segment, else append
a fresh zeroed segment. The new segment's size comes from
`MessageBuilder::allocateSegment`, which is not under `src/`; modelled from
the spec's pluggable size policy as `max(minimumAvailable, suggested)`. -/
def getSegmentWithAvailable (suggested : Nat) (a : BArena) (minAvail : Nat) : Nat × BArena :=
  if (arenaGet a 0).size - (arenaGet a 0).pos ≥ minAvail then (0, a)
  else if 2 ≤ a.segs.length ∧
      (arenaGet a (a.segs.length - 1)).size - (arenaGet a (a.segs.length - 1)).pos ≥ minAvail then
    (a.segs.length - 1, a)
  else (a.segs.length, ⟨a.segs ++ [⟨fun _ => 0, max minAvail suggested, 0⟩]⟩)

mutual

/-- `WireHelpers::zeroObject(segment, ref)`: zero everything reachable from
the pointer at `(si, refIdx)` (the slot itself is left alone). -/
def zeroObjectRef (fuel : Nat) (a : BArena) (si refIdx : Nat) : Option BArena :=
  match fuel with
  | 0 => none
  | Nat.succ fuel =>
    let v := aMem a si refIdx
    if wpKind v = 0 ∨ wpKind v = 1 then
      let t := wpTarget refIdx v
      if t < 0 then none
      else zeroObjectTag fuel a si v t.toNat
    else if wpKind v = 2 then
      let padSeg := farSegId v
      let padPos := farPosition v
      if farIsDouble v then
        let pad0 := aMem a padSeg padPos
        match zeroObjectTag fuel a (farSegId pad0) (aMem a padSeg (padPos + 1))
            (farPosition pad0) with
        | none => none
        | some a2 => some (aMemset a2 padSeg padPos 2)
      else
        match zeroObjectRef fuel a padSeg padPos with
        | none => none
        | some a2 => some (aMemset a2 padSeg padPos 1)
    else some a

termination_by structural fuel

/-- `WireHelpers::zeroObject(segment, tag, ptr)`: zero the object body at
`(si, ptrIdx)` described by the pointer/tag word `tagW`. For an
inline-composite list the source memsets
`(elementTag->structRef.wordSize() + POINTER_SIZE_IN_WORDS)` words — one
element plus the tag, regardless of the element count — which this model
reproduces verbatim. -/
def zeroObjectTag (fuel : Nat) (a : BArena) (si tagW ptrIdx : Nat) : Option BArena :=
  match fuel with
  | 0 => none
  | Nat.succ fuel =>
    if wpKind tagW = 0 then
      match zeroPtrSection fuel a si (ptrIdx + structDataSize tagW) (structPtrCount tagW) with
      | none => none
      | some a2 => some (aMemset a2 si ptrIdx (structDataSize tagW + structPtrCount tagW))
    else if wpKind tagW = 1 then
      match listElemSizeCode tagW with
      | 0 => some a
      | 6 => zeroPtrSection fuel a si ptrIdx (listElemCount tagW)
      | 7 =>
        let elementTag := aMem a si ptrIdx
        if wpKind elementTag ≠ 0 then none
        else
          match zeroICElements fuel a si (structDataSize elementTag)
              (structPtrCount elementTag) (ptrIdx + 1) (icElementCount elementTag) with
          | none => none
          | some a2 =>
            some (aMemset a2 si ptrIdx
              (structDataSize elementTag + structPtrCount elementTag + 1))
      | _ => some (aMemset a si ptrIdx
          (roundBitsUpToWords (listElemCount tagW * dataBitsPerElement (listElemSizeCode tagW))))
    else some a

termination_by structural fuel

/-- Zero the objects hanging off `n` consecutive pointer slots. -/
def zeroPtrSection (fuel : Nat) (a : BArena) (si base n : Nat) : Option BArena :=
  match fuel with
  | 0 => none
  | Nat.succ fuel =>
    match n with
    | 0 => some a
    | Nat.succ m =>
      match zeroPtrSection fuel a si base m with
      | none => none
      | some a2 => zeroObjectRef fuel a2 si (base + m)

termination_by structural fuel

/-- Zero the objects hanging off the pointer sections of `cnt`
inline-composite elements of layout `(d, r)` starting at `pos`. -/
def zeroICElements (fuel : Nat) (a : BArena) (si d r pos cnt : Nat) : Option BArena :=
  match fuel with
  | 0 => none
  | Nat.succ fuel =>
    match cnt with
    | 0 => some a
    | Nat.succ m =>
      match zeroICElements fuel a si d r pos m with
      | none => none
      | some a2 => zeroPtrSection fuel a2 si (pos + m * (d + r) + d) r

termination_by structural fuel

end

/-- `WireHelpers::allocate(ref, segment, amount, kind)`: zero the old object
if the slot is non-null, then bump-allocate; on failure obtain a segment
with `amount + 1` free words, write a single-far pointer into the slot
targeting a one-word landing pad, write the pad as a `kind` pointer to the
following words, and return those words. Returns
`(arena, refSegment, refIdx, objSegment, objIdx)` — `ref` is reseated on the
landing pad in the spill case, as in the source. -/
def allocateW (fuel suggested : Nat) (a : BArena) (si refIdx amount kind : Nat) :
    Option (BArena × Nat × Nat × Nat × Nat) :=
  let v := aMem a si refIdx
  match (if wpNull v then some a else zeroObjectRef fuel a si refIdx) with
  | none => none
  | some a1 =>
    match segAllocate (arenaGet a1 si) amount with
    | some (ptr, sg') =>
      let a2 := arenaSet a1 si sg'
      let a3 := arenaSet a2 si (setKindAndTarget (arenaGet a2 si) refIdx kind ptr)
      some (a3, si, refIdx, si, ptr)
    | none =>
      let ta := getSegmentWithAvailable suggested a1 (amount + 1)
      match segAllocate (arenaGet ta.2 ta.1) (amount + 1) with
      | none => none
      | some (ptr, sg') =>
        let a3 := arenaSet ta.2 ta.1 sg'
        let a4 := aWrite a3 si refIdx (8 * ptr + 2 + 2 ^ 32 * ta.1)
        let a5 := arenaSet a4 ta.1 (setKindAndTarget (arenaGet a4 ta.1) ptr kind (ptr + 1))
        some (a5, ta.1, ptr, ta.1, ptr + 1)

end CapnProto

namespace CapnProto

/-- Segment memory for the C4 failing input: word 0 is a LIST pointer
(kind 1, offset 0, so target word 1) with element size INLINE_COMPOSITE
(code 7) and declared word count 2; word 1 is the list's tag word, a
STRUCT-kind word declaring 2 elements of data size 1 and pointer count 0;
words 2 and 3 are the two elements' (nonzero) data words. -/
def c4mem : Nat → Nat := fun i =>
  if i = 0 then 1 + 2 ^ 32 * 23 else
  if i = 1 then 8 + 2 ^ 32 else
  if i = 2 then 43690 else
  if i = 3 then 48059 else 0

/-- One-segment builder arena holding the inline-composite list above;
16 words total, 4 already allocated. -/
def c4arena : BArena := ⟨[⟨c4mem, 16, 4⟩]⟩

/-- Claim C4: `WireHelpers::allocate` on a non-null slot must zero *every*
word reachable from the old object before reuse. The code does not: for an
inline-composite list, `zeroObject` memsets only
`elementTag->structRef.wordSize() + POINTER_SIZE_IN_WORDS` words — one
element plus the tag — instead of `count * wordSize + 1`. On this input the
old object is an inline-composite list of two one-word structs occupying
words 1–3; `allocate` succeeds in-segment (returning the slot at word 0 and
the fresh object at word 4) and zeroes words 1 and 2 (tag + first element),
but word 3, the second element's data word — reachable from the old
object — still holds its old value 48059 ≠ 0. -/
theorem allocate_zero_c4_bug :
    (allocateW 10 8 c4arena 0 0 1 0).map
        (fun r => (r.2, aMem r.1 0 1, aMem r.1 0 2, aMem r.1 0 3)) =
      some ((0, 0, 0, 4), 0, 0, 48059) ∧ 48059 ≠ 0 := by
  exact ⟨by decide, by decide⟩

end CapnProto
